import Mathlib

/-!
# Verification of the scrutiny-fabric identifier core

Shallow embedding of the bech32/NIP-19 decoding core, the TLV parser, the
identifier reconstruction, the address resolver, the resilient HTTP retry
loop and the capability probe of `publish_nostr.py`, together with theorems
settling the specification claims about them.

Strings are embedded as lists of Unicode code points (`List Nat`, one entry
per character, matching Python's `ord`).  Byte buffers are embedded as
`List Nat` with entries below 256.  Fallible Python functions (those that
raise) are embedded as `Option`/`Except` valued functions.
-/

deriving instance DecidableEq for Except

namespace Scrutiny

/-! ## Bech32 codec (`_bech32_polymod`, `_bech32_hrp_expand`,
`_bech32_verify_checksum`, `_bech32_decode_to_words`, `_convertbits`,
`_nip19_payload`) -/

/-- The five generator constants used by `_bech32_polymod`. -/
def GEN : List Nat := [0x3b6a57b2, 0x26508e6d, 0x1ea119fa, 0x3d4233dd, 0x2a1462b3]

/-- One iteration of the `for v in values` loop of `_bech32_polymod`:
`b = (chk >> 25) & 0xFF; chk = ((chk & 0x1FFFFFF) << 5) ^ v;`
then `chk ^= GEN[i]` for each set bit `i` of `b`. -/
def polymodStep (chk v : Nat) : Nat :=
  let b := (chk >>> 25) &&& 0xFF
  let c0 := ((chk &&& 0x1FFFFFF) <<< 5) ^^^ v
  (List.range 5).foldl (fun c i => c ^^^ (if (b >>> i) &&& 1 = 1 then GEN.getD i 0 else 0)) c0

/-- `_bech32_polymod(values)`: fold `polymodStep` from the initial checksum 1. -/
def _bech32_polymod (values : List Nat) : Nat :=
  values.foldl polymodStep 1

/-- `_bech32_hrp_expand(hrp)`: high 3 bits of each char, a zero, then the
low 5 bits of each char. -/
def _bech32_hrp_expand (hrp : List Nat) : List Nat :=
  hrp.map (fun x => x >>> 5) ++ [0] ++ hrp.map (fun x => x &&& 31)

/-- `_bech32_verify_checksum(hrp, data)`. -/
def _bech32_verify_checksum (hrp data : List Nat) : Bool :=
  _bech32_polymod (_bech32_hrp_expand hrp ++ data) = 1

/-- Python `str.lower` on a single code point, exact on ASCII.  All inputs
that survive the printable-ASCII range check of `_bech32_decode_to_words`
consist of code points in [33,126], where this is exactly Python's mapping. -/
def pyLower (c : Nat) : Nat := if 65 ≤ c ∧ c ≤ 90 then c + 32 else c

/-- Python `str.upper` on a single code point, exact on ASCII. -/
def pyUpper (c : Nat) : Nat := if 97 ≤ c ∧ c ≤ 122 then c - 32 else c

/-- Index of the rightmost `'1'` (code 49), Python `str.rfind("1")`;
`none` plays the role of Python's `-1`. -/
def rfind1 : List Nat → Option Nat
  | [] => none
  | c :: rest =>
    match rfind1 rest with
    | some i => some (i + 1)
    | none => if c = 49 then some 0 else none

/-- The 32-symbol bech32 alphabet `"qpzry9x8gf2tvdw0s3jn54khce6mua7l"`,
as code points. -/
def CHARSET : List Nat :=
  [113, 112, 122, 114, 121, 57, 120, 56, 103, 102, 50, 116, 118, 100, 119, 48,
   115, 51, 106, 110, 53, 52, 107, 104, 99, 101, 54, 109, 117, 97, 55, 108]

/-- First index of `c` in a list, or `none`: the lookup through
`_BECH32_CHARSET_MAP` (built with distinct keys, so first = only). -/
def lookupIdx (c : Nat) : List Nat → Option Nat
  | [] => none
  | x :: rest => if x = c then some 0 else (lookupIdx c rest).map (· + 1)

/-- `_BECH32_CHARSET_MAP[c]` as a partial function. -/
def charsetIdx (c : Nat) : Option Nat := lookupIdx c CHARSET

/-- The list comprehension `[_BECH32_CHARSET_MAP[c] for c in data_part]`,
with `KeyError` (i.e. any unmapped character) collapsing to `none`. -/
def mapWords : List Nat → Option (List Nat)
  | [] => some []
  | c :: rest =>
    match charsetIdx c, mapWords rest with
    | some w, some ws => some (w :: ws)
    | _, _ => none

/-- `_bech32_decode_to_words(bech)`; `none` stands for the `(None, None)`
return. -/
def _bech32_decode_to_words (bech : List Nat) : Option (List Nat × List Nat) :=
  if (bech.map pyLower ≠ bech ∧ bech.map pyUpper ≠ bech) ∨
      bech.any (fun c => c < 33 || 126 < c) then none
  else
    let b := bech.map pyLower
    match rfind1 b with
    | none => none
    | some pos =>
      if pos < 1 ∨ pos + 7 > b.length then none
      else
        let hrp := b.take pos
        let data_part := b.drop (pos + 1)
        match mapWords data_part with
        | none => none
        | some data =>
          if ¬ _bech32_verify_checksum hrp data then none
          else some (hrp, data.take (data.length - 6))

/-- The `while bits >= tobits` extraction loop inside `_convertbits`, with a
fuel argument for structural recursion: each iteration removes `tobits ≥ 1`
from `bits`, so `bits` itself is always enough fuel (the source is only ever
run with `tobits = 8`, for which the loop terminates the same way). -/
def cbLoopF (tobits maxv : Nat) : Nat → Nat → Nat → List Nat × Nat
  | 0, _, bits => ([], bits)
  | fuel + 1, acc, bits =>
    if 0 < tobits ∧ tobits ≤ bits then
      let bits' := bits - tobits
      let rest := cbLoopF tobits maxv fuel acc bits'
      (((acc >>> bits') &&& maxv) :: rest.1, rest.2)
    else ([], bits)

/-- The extraction loop entered with `bits` units of fuel. -/
def cbLoop (acc bits tobits maxv : Nat) : List Nat × Nat :=
  cbLoopF tobits maxv bits acc bits

/-- The `for value in data` loop of `_convertbits`: threads `(acc, bits, ret)`
and fails on an out-of-range value. -/
def cbGo (frombits tobits maxv maxacc : Nat) :
    List Nat → Nat → Nat → List Nat → Option (Nat × Nat × List Nat)
  | [], acc, bits, ret => some (acc, bits, ret)
  | v :: vs, acc, bits, ret =>
    if v >>> frombits ≠ 0 then none
    else
      let acc' := ((acc <<< frombits) ||| v) &&& maxacc
      let bits1 := bits + frombits
      let e := cbLoop acc' bits1 tobits maxv
      cbGo frombits tobits maxv maxacc vs acc' e.2 (ret ++ e.1)

/-- `_convertbits(data, frombits, tobits, pad)`. -/
def _convertbits (data : List Nat) (frombits tobits : Nat) (pad : Bool) :
    Option (List Nat) :=
  let maxv := (1 <<< tobits) - 1
  let maxacc := (1 <<< (frombits + tobits - 1)) - 1
  match cbGo frombits tobits maxv maxacc data 0 0 [] with
  | none => none
  | some (acc, bits, ret) =>
    if pad then
      if bits ≠ 0 then some (ret ++ [(acc <<< (tobits - bits)) &&& maxv]) else some ret
    else if bits ≥ frombits ∨ (acc <<< (tobits - bits)) &&& maxv ≠ 0 then none
    else some ret

/-- `_nip19_payload(bech32_str)`: `none` stands for the raised `ValueError`s;
on success, the (lowercased) prefix and the regrouped payload bytes. -/
def _nip19_payload (bech : List Nat) : Option (List Nat × List Nat) :=
  match _bech32_decode_to_words bech with
  | none => none
  | some (hrp, words) =>
    match _convertbits words 5 8 false with
    | none => none
    | some b => some (hrp, b)

/-! ## TLV parser (`_parse_tlvs`) -/

/-- `tlvs.setdefault(t, []).append(v)` on an insertion-ordered multi-map
(Python dicts preserve insertion order). -/
def addTlv (m : List (Nat × List (List Nat))) (t : Nat) (v : List Nat) :
    List (Nat × List (List Nat)) :=
  match m with
  | [] => [(t, [v])]
  | (t', vs) :: rest =>
    if t' = t then (t', vs ++ [v]) :: rest else (t', vs) :: addTlv rest t v

/-- The `while i + 2 <= len(payload)` loop of `_parse_tlvs`, expressed on the
remaining suffix of the buffer, with a fuel argument for structural
recursion: each iteration consumes at least two bytes of the suffix, so the
buffer length is always enough fuel (`parseTlvF_fuel` below). -/
def parseTlvF : Nat → List Nat → List (Nat × List (List Nat)) → List (Nat × List (List Nat))
  | _, [], acc => acc
  | _, [_], acc => acc
  | 0, _ :: _ :: _, acc => acc
  | fuel + 1, t :: l :: rest, acc =>
    if l ≤ rest.length then parseTlvF fuel (rest.drop l) (addTlv acc t (rest.take l))
    else acc

/-- `_parse_tlvs(payload)`. -/
def _parse_tlvs (payload : List Nat) : List (Nat × List (List Nat)) :=
  parseTlvF payload.length payload []

/-- `tlvs.get(t) or []`. -/
def getTlv (m : List (Nat × List (List Nat))) (t : Nat) : List (List Nat) :=
  match m with
  | [] => []
  | (t', vs) :: rest => if t' = t then vs else getTlv rest t

/-! ## UTF-8 validity (Python `bytes.decode("utf-8")` succeeds or raises) -/

/-- Continuation byte test `0x80 ≤ c ≤ 0xBF`. -/
def utf8Cont (c : Nat) : Bool := 0x80 ≤ c && c ≤ 0xBF

/-- Strict UTF-8 validity of a byte sequence, exactly when Python's
`bytes.decode("utf-8")` succeeds: rejects stray continuation bytes, overlong
forms, surrogates and code points above U+10FFFF. -/
def utf8Valid : List Nat → Bool
  | [] => true
  | c :: rest =>
    if c < 0x80 then utf8Valid rest
    else if c < 0xC2 then false
    else if c < 0xE0 then
      match rest with
      | c1 :: rest' => utf8Cont c1 && utf8Valid rest'
      | [] => false
    else if c < 0xF0 then
      match rest with
      | c1 :: c2 :: rest' =>
        (if c = 0xE0 then 0xA0 ≤ c1 && c1 ≤ 0xBF
         else if c = 0xED then 0x80 ≤ c1 && c1 ≤ 0x9F
         else utf8Cont c1) && utf8Cont c2 && utf8Valid rest'
      | _ => false
    else if c < 0xF5 then
      match rest with
      | c1 :: c2 :: c3 :: rest' =>
        (if c = 0xF0 then 0x90 ≤ c1 && c1 ≤ 0xBF
         else if c = 0xF4 then 0x80 ≤ c1 && c1 ≤ 0x8F
         else utf8Cont c1) && utf8Cont c2 && utf8Cont c3 && utf8Valid rest'
      | _ => false
    else false

/-! ## Identifier reconstruction (`decode_nprofile`, `decode_naddr`)

Both functions are embedded from the point where the bech32 layer has
already produced the raw payload bytes (i.e. from `tlvs = _parse_tlvs(payload)`
onward); the earlier `_strip_wrappers` / `_find_candidate_token` / prefix and
hrp checks only select which of them runs.  Decoded UTF-8 strings are
represented by their (valid) UTF-8 byte sequences. -/

/-- `int.from_bytes(b, "big", signed=False)`. -/
def beBytes (b : List Nat) : Nat := b.foldl (fun a x => a * 256 + x) 0

/-- The relay-collection loop shared by both decoders: UTF-8-decode each
TLV value, keeping buffer order and silently dropping values whose decode
raises. -/
def collectRelays (vals : List (List Nat)) : List (List Nat) :=
  vals.filter utf8Valid

/-- `decode_nprofile`, from `tlvs = _parse_tlvs(payload)` onward.  Returns
the 32-byte pubkey (the code renders it as hex; the bytes are kept here) and
the relay list. -/
def decode_nprofile_core (payload : List Nat) :
    Except String (List Nat × List (List Nat)) :=
  let tlvs := _parse_tlvs payload
  match getTlv tlvs 0 with
  | [] => .error "nprofile missing pubkey (TLV 0 len 32)"
  | pk :: _ =>
    if pk.length ≠ 32 then .error "nprofile missing pubkey (TLV 0 len 32)"
    else .ok (pk, collectRelays (getTlv tlvs 1))

/-- `decode_naddr`, from `tlvs = _parse_tlvs(payload)` onward.  Returns
`(kind, author pubkey bytes, identifier bytes, relays)`. -/
def decode_naddr_core (payload : List Nat) :
    Except String (Nat × List Nat × List Nat × List (List Nat)) :=
  let tlvs := _parse_tlvs payload
  match getTlv tlvs 0 with
  | [] => .error "naddr missing identifier (TLV 0)"
  | id0 :: _ =>
    if ¬ utf8Valid id0 then .error "naddr identifier (TLV 0) is not valid UTF-8"
    else
      match getTlv tlvs 2 with
      | [] => .error "naddr missing author pubkey (TLV 2 len 32)"
      | a0 :: _ =>
        if a0.length ≠ 32 then .error "naddr missing author pubkey (TLV 2 len 32)"
        else
          match getTlv tlvs 3 with
          | [] => .error "naddr missing kind (TLV 3 len 4)"
          | k0 :: _ =>
            if k0.length ≠ 4 then .error "naddr missing kind (TLV 3 len 4)"
            else .ok (beBytes k0, a0, id0, collectRelays (getTlv tlvs 1))

/-! ## Resilient HTTP client (`http_request`)

The transport (the inner `_do` thunk built on `urlopen`) is abstracted as a
per-attempt oracle that either returns a `SimpleResponse` or raises; the
backoff `await asyncio.sleep((2 ** attempt) * 0.5)` is recorded as a trace of
slept durations (in seconds, as rationals). -/

/-- The `SimpleResponse` record of the source. -/
structure SimpleResponse where
  status_code : Nat
  headers : List (List Nat × List Nat)
  content : List Nat
deriving DecidableEq, Repr

/-- Exceptions observable inside the retry loop: an exception thrown by the
transport (abstracted by an identifying code), the `RuntimeError(f"HTTP
{status}")` raised for a retryable status, and the final
`RuntimeError("HTTP request failed")` fallback. -/
inductive HttpExc where
  | transportExc (e : Nat)
  | httpStatus (code : Nat)
  | genericFail
deriving DecidableEq, Repr

/-- One transport attempt: `Except.error e` models a raised exception. -/
abbrev Transport := Nat → Except Nat SimpleResponse

/-- `(2 ** attempt) * 0.5` seconds. -/
def backoff (attempt : Nat) : ℚ := (2 ^ attempt : ℚ) * (1 / 2)

/-- A status that the loop retries: `status >= 500 or status == 429`. -/
def retryStatus (s : Nat) : Bool := 500 ≤ s || s = 429

/-- The `while attempt < max_retries` loop of `http_request`, by recursion on
the remaining attempt budget.  Returns the outcome together with the ordered
trace of backoff sleeps performed. -/
def httpLoop (transport : Transport) :
    Nat → Nat → Option HttpExc → List ℚ → Except HttpExc SimpleResponse × List ℚ
  | 0, _, last, sleeps => (.error (last.getD .genericFail), sleeps)
  | remaining + 1, attempt, last, sleeps =>
    match transport attempt with
    | .ok resp =>
      if retryStatus resp.status_code then
        httpLoop transport remaining (attempt + 1) (some (.httpStatus resp.status_code))
          (sleeps ++ [backoff attempt])
      else (.ok resp, sleeps)
    | .error e =>
      httpLoop transport remaining (attempt + 1) (some (.transportExc e))
        (sleeps ++ [backoff attempt])

/-- `http_request` restricted to its retry skeleton (method/header/body
handling does not influence the control flow modelled by the claims). -/
def http_request (transport : Transport) (max_retries : Nat) :
    Except HttpExc SimpleResponse × List ℚ :=
  httpLoop transport max_retries 0 none []

/-- An attempt after which the loop retries: the transport raised, or the
obtained status satisfies `retryStatus`. -/
def badAttempt (transport : Transport) (i : Nat) : Bool :=
  match transport i with
  | .ok r => retryStatus r.status_code
  | .error _ => true

/-- The exception recorded from a failed attempt. -/
def excOf (transport : Transport) (i : Nat) : HttpExc :=
  match transport i with
  | .ok r => .httpStatus r.status_code
  | .error e => .transportExc e

/-! ## Address resolution (`resolve_naddr_to_event_id`)

The decoded naddr fields form an `NAddress`.  The rust-nostr SDK is an
external collaborator: its `Filter` builder chain and
`client.fetch_events(filter, timeout)` are modelled from the spec at the
interface (a query record and an oracle returning the fetched event ids,
already normalized to a list). -/

/-- The decoded naddr: `(kind, author pubkey, identifier, embedded relays)`. -/
structure NAddress where
  kind : Nat
  author : List Nat
  identifier : List Nat
  relays : List (List Nat)

/-- Modelled from the spec: the SDK `Filter` builder record, holding the
author, kind, identifier-tag and limit set by the chained builder calls. -/
structure NFilter where
  authors : List (List Nat)
  kinds : List Nat
  identifiers : List (List Nat)
  limitN : Option Nat
deriving DecidableEq, Repr

/-- `Filter()`. -/
def NFilter.empty : NFilter := ⟨[], [], [], none⟩

/-- `.author(pk)`. -/
def NFilter.author (f : NFilter) (pk : List Nat) : NFilter :=
  { f with authors := f.authors ++ [pk] }

/-- `.kind(k)`. -/
def NFilter.kind (f : NFilter) (k : Nat) : NFilter :=
  { f with kinds := f.kinds ++ [k] }

/-- `.identifier(d)`. -/
def NFilter.identifier (f : NFilter) (d : List Nat) : NFilter :=
  { f with identifiers := f.identifiers ++ [d] }

/-- `.limit(n)`. -/
def NFilter.limit (f : NFilter) (n : Nat) : NFilter :=
  { f with limitN := some n }

/-- Modelled from the spec: the external query transport
`query(relays, filter, timeoutSeconds) -> list of event ids`. -/
abbrev FetchEvents := List (List Nat) → NFilter → Nat → List (List Nat)

/-- `resolve_naddr_to_event_id`, from the decoded address onward: pick the
relay set (`embedded_relays or relay_urls`), build the filter chain
`Filter().author(pk).kind(kind).identifier(ident).limit(1)`, fetch once with
an 8-second timeout, and fail (`RuntimeError`, modelled as `.error 0`) when
no events come back; otherwise return the first event's id. -/
def resolve_naddr_to_event_id (addr : NAddress) (relay_urls : List (List Nat))
    (fetch_events : FetchEvents) : Except Nat (List Nat) :=
  let relays := if addr.relays = [] then relay_urls else addr.relays
  let f := ((((NFilter.empty).author addr.author).kind addr.kind).identifier
    addr.identifier).limit 1
  match fetch_events relays f 8 with
  | [] => .error 0
  | e :: _ => .ok e

/-! ## Capability probe (`fetch_relay_min_pow`)

The HTTP layer, URL scheme conversion and JSON parsing are abstracted into a
per-endpoint `ProbeOutcome`; the body of the `for rurl in relay_urls` loop is
then a faithful translation, including Python truthiness of the
`info.get("limitation") or info.get("limits") or {}` chain, the
`AttributeError` raised by `.get` on a non-dict (caught by the blanket
`except`), and `isinstance(v, int)` accepting `bool`. -/

/-- A JSON value as produced by `resp.json()`. -/
inductive JValue where
  | null
  | bool (b : Bool)
  | int (n : Int)
  | str (s : List Nat)
  | arr (l : List JValue)
  | obj (fields : List (String × JValue))
deriving BEq, Repr

/-- Python truthiness of a JSON value. -/
def truthy : JValue → Bool
  | .null => false
  | .bool b => b
  | .int n => n ≠ 0
  | .str s => s ≠ []
  | .arr l => !l.isEmpty
  | .obj l => !l.isEmpty

/-- `d.get(k)` on a parsed JSON object. -/
def jget (fields : List (String × JValue)) (k : String) : Option JValue :=
  match fields with
  | [] => none
  | (k', v) :: rest => if k' = k then some v else jget rest k

/-- `isinstance(v, int)` (true for `bool` too, since Python `bool ⊂ int`),
together with the integer value used. -/
def asInt : JValue → Option Int
  | .int n => some n
  | .bool b => some (if b then 1 else 0)
  | _ => none

/-- The ordered `keys_to_check` list. -/
def keysToCheck : List String :=
  ["min_pow_difficulty", "minPoW", "minPoWDifficulty", "pow", "pow_difficulty",
   "required_pow", "min_difficulty", "difficulty"]

/-- One per-endpoint diagnostic record (the `url` key is positional here). -/
structure ProbeEntry where
  reachable : Bool
  min_pow : Option Int
  forced : Bool
deriving DecidableEq, Repr

/-- What the outside world did for one endpoint: `convert_ws_to_http`
returned `None`; the fetch (or any later step) raised; or a response with a
status, body bytes and the value `resp.json()` would produce (`none` when
`json()` would raise). -/
inductive ProbeOutcome where
  | badScheme
  | exc
  | resp (status : Nat) (content : List Nat) (json : Option JValue)

/-- `info.get("limitation") or info.get("limits") or {}`. -/
def limChain (fields : List (String × JValue)) : JValue :=
  match jget fields "limitation" with
  | some v =>
    if truthy v then v
    else
      match jget fields "limits" with
      | some w => if truthy w then w else .obj []
      | none => .obj []
  | none =>
    match jget fields "limits" with
    | some w => if truthy w then w else .obj []
    | none => .obj []

/-- The `for k in keys_to_check` maximum accumulation. -/
def bestOf (limFields : List (String × JValue)) : Option Int :=
  keysToCheck.foldl
    (fun best k =>
      match (jget limFields k).bind asInt with
      | some v => some (match best with | none => v | some b => max b v)
      | none => best)
    none

/-- The body of the `for rurl in relay_urls` loop, producing the diagnostic
entry appended for that endpoint (with `forced` still at its default). -/
def probeEntry (o : ProbeOutcome) : ProbeEntry :=
  match o with
  | .badScheme => ⟨false, none, false⟩
  | .exc => ⟨false, none, false⟩
  | .resp status content json =>
    if status ≠ 200 then ⟨false, none, false⟩
    else
      match (if content = [] then some (JValue.obj []) else json) with
      | none => ⟨false, none, false⟩
      | some info =>
        match info with
        | .obj fields =>
          match limChain fields with
          | .obj limFields => ⟨true, bestOf limFields, false⟩
          | _ => ⟨false, none, false⟩
        | _ => ⟨false, none, false⟩

/-- The running `max_pow` update
`if isinstance(best, int) and best > max_pow: max_pow = best`. -/
def maxUpdate (m : Int) (e : ProbeEntry) : Int :=
  match e.min_pow with
  | some v => if v > m then v else m
  | none => m

/-- The final pass
`e["forced"] = (e.get("min_pow") == max_pow and isinstance(e.get("min_pow"), int))`. -/
def setForced (m : Int) (e : ProbeEntry) : ProbeEntry :=
  { e with forced := (match e.min_pow with | some v => decide (v = m) | none => false) }

/-- The accumulation over all endpoints. -/
def probeLoop : List ProbeOutcome → Int → List ProbeEntry → Int × List ProbeEntry
  | [], m, acc => (m, acc)
  | o :: os, m, acc =>
    let e := probeEntry o
    probeLoop os (maxUpdate m e) (acc ++ [e])

/-- `fetch_relay_min_pow(relay_urls)` with the world abstracted to one
`ProbeOutcome` per endpoint: returns `(max_pow, diag)`. -/
def fetch_relay_min_pow (outcomes : List ProbeOutcome) : Int × List ProbeEntry :=
  let r := probeLoop outcomes 0 []
  (r.1, r.2.map (setForced r.1))

/-! ## Helper lemmas -/

lemma probeLoop_entries (outcomes : List ProbeOutcome) :
    ∀ m acc, (probeLoop outcomes m acc).2 = acc ++ outcomes.map probeEntry := by
  induction outcomes with
  | nil => intro m acc; simp [probeLoop]
  | cons o os ih => intro m acc; simp [probeLoop, ih]

lemma fetch_diag_eq (outcomes : List ProbeOutcome) :
    (fetch_relay_min_pow outcomes).2 =
      outcomes.map (fun o => setForced (fetch_relay_min_pow outcomes).1 (probeEntry o)) := by
  simp only [fetch_relay_min_pow, probeLoop_entries, List.nil_append, List.map_map]
  rfl

lemma setForced_fields (m : Int) (e : ProbeEntry) :
    (setForced m e).reachable = e.reachable ∧ (setForced m e).min_pow = e.min_pow := by
  simp [setForced]

/-! ## Claim C2 -/

-- (the C1 witness appears after the C1 theorem, further below)

/-- C2: `_parse_tlvs` is total (never raises): it scans records of one type
byte, one length byte and `length` value bytes; as soon as fewer than two
header bytes remain, or fewer than the declared `length` value bytes remain,
it stops silently and returns the multi-map accumulated so far; and on the
buffer `00 03 'a' 'b' 'c' 02 20` followed by 32 bytes `01` it returns exactly
`{0: [b"abc"], 2: [32 × 01]}`. -/
theorem parse_tlvs_stops_silently_and_example :
    (∀ fuel acc, parseTlvF fuel [] acc = acc) ∧
    (∀ fuel x acc, parseTlvF fuel [x] acc = acc) ∧
    (∀ fuel t l rest acc, rest.length < l → parseTlvF fuel (t :: l :: rest) acc = acc) ∧
    (∀ fuel t l rest acc, l ≤ rest.length →
      parseTlvF (fuel + 1) (t :: l :: rest) acc =
        parseTlvF fuel (rest.drop l) (addTlv acc t (rest.take l))) ∧
    _parse_tlvs ([0, 3, 97, 98, 99, 2, 32] ++ List.replicate 32 1) =
      [(0, [[97, 98, 99]]), (2, [List.replicate 32 1])] := by
  refine ⟨fun fuel acc => by cases fuel <;> rfl,
    fun fuel x acc => by cases fuel <;> rfl,
    fun fuel t l rest acc h => ?_,
    fun fuel t l rest acc h => by simp [parseTlvF, h],
    by decide⟩
  cases fuel with
  | zero => rfl
  | succ n => simp [parseTlvF, Nat.not_le.mpr h]

/-- Witness for C2: the truncation clause applied at a concrete buffer whose
declared length 3 exceeds the single remaining byte. -/
theorem parse_tlvs_stops_silently_witness :
    parseTlvF 5 [0, 3, 97] [] = [] :=
  parse_tlvs_stops_silently_and_example.2.2.1 5 0 3 [97] [] (by decide)

/-! ## Claim C9 -/

/-- C9: after `fetch_relay_min_pow` completes, an endpoint's entry has
`forced = true` iff its own extracted `min_pow` is an integer equal to the
global maximum the call returns; an endpoint with no extracted value is never
marked forced. -/
theorem forced_iff_min_pow_is_returned_max :
    ∀ (outcomes : List ProbeOutcome) (e : ProbeEntry),
      e ∈ (fetch_relay_min_pow outcomes).2 →
      (e.forced = true ↔ ∃ v, e.min_pow = some v ∧ v = (fetch_relay_min_pow outcomes).1) := by
  intro outcomes e he
  rw [fetch_diag_eq] at he
  rcases List.mem_map.mp he with ⟨o, _, rfl⟩
  rcases h : (probeEntry o).min_pow with _ | v
  · simp [setForced, h]
  · simp [setForced, h]

/-- Witness for C9: a probed endpoint whose capability document reports
`limitation.pow = 5` ends up with `min_pow = 5`, equal to the returned
maximum, and is marked forced. -/
theorem forced_iff_min_pow_witness :
    ∃ v, (ProbeEntry.mk true (some 5) true).min_pow = some v ∧
      v = (fetch_relay_min_pow
        [ProbeOutcome.resp 200 [123]
          (some (JValue.obj [("limitation", JValue.obj [("pow", JValue.int 5)])]))]).1 :=
  (forced_iff_min_pow_is_returned_max
    [ProbeOutcome.resp 200 [123]
      (some (JValue.obj [("limitation", JValue.obj [("pow", JValue.int 5)])]))]
    ⟨true, some 5, true⟩ (by decide)).mp (by decide)

/-! ## Claim C8 (corrected) -/

/-- Counterexample to C8 as stated: an endpoint whose capability fetch
returns status 200 with an *empty body* is reported with `reachable = true`
(and no min-difficulty value), not `reachable = false` as the claim says. -/
theorem capability_probe_empty_body_counterexample :
    (fetch_relay_min_pow [ProbeOutcome.resp 200 [] none]).2 =
      [⟨true, none, false⟩] := by decide

/-- C8 as amended: a non-200 status makes the endpoint's report unreachable
with no min-difficulty value; a 200 status with an empty body yields a
*reachable* report that still carries no min-difficulty value. -/
theorem capability_probe_non200_unreachable :
    ∀ (outcomes : List ProbeOutcome) (i : Nat) (st : Nat) (c : List Nat)
      (j : Option JValue), outcomes.get? i = some (.resp st c j) →
      (st ≠ 200 → ∃ e, (fetch_relay_min_pow outcomes).2.get? i = some e ∧
        e.reachable = false ∧ e.min_pow = none) ∧
      (st = 200 → c = [] → ∃ e, (fetch_relay_min_pow outcomes).2.get? i = some e ∧
        e.reachable = true ∧ e.min_pow = none) := by
  intro outcomes i st c j hi
  have hdiag := fetch_diag_eq outcomes
  constructor
  · intro hst
    refine ⟨setForced (fetch_relay_min_pow outcomes).1 (probeEntry (.resp st c j)), ?_, ?_, ?_⟩
    · rw [hdiag, List.get?_map, hi]; rfl
    · simp [setForced, probeEntry, hst]
    · simp [setForced, probeEntry, hst]
  · intro hst hc
    subst hst hc
    refine ⟨setForced (fetch_relay_min_pow outcomes).1 (probeEntry (.resp 200 [] j)), ?_, ?_, ?_⟩
    · rw [hdiag, List.get?_map, hi]; rfl
    · simp [setForced, probeEntry, limChain, jget, bestOf, keysToCheck]
    · simp [setForced, probeEntry, limChain, jget, bestOf, keysToCheck]

/-- Witness for C8 (amended): a 404 endpoint is reported unreachable with no
value. -/
theorem capability_probe_non200_witness :
    ∃ e, (fetch_relay_min_pow [ProbeOutcome.resp 404 [49] none]).2.get? 0 = some e ∧
      e.reachable = false ∧ e.min_pow = none :=
  (capability_probe_non200_unreachable [ProbeOutcome.resp 404 [49] none] 0 404 [49] none
    rfl).1 (by decide)

/-! ## Claim C3 -/

/-- C3: for any payload the bech32/TLV layer produced, `decode_naddr` errors
whenever the first TLV type-3 value has length ≠ 4 (never truncating or
zero-extending), on success returns the kind as the big-endian unsigned
integer of those exactly-4 bytes, and errors when TLV type 0 or TLV type 2 is
absent. -/
theorem decode_naddr_kind_strict :
    ∀ payload : List Nat,
      (∀ v, (getTlv (_parse_tlvs payload) 3).head? = some v → v.length ≠ 4 →
        ∃ e, decode_naddr_core payload = .error e) ∧
      (∀ k pk id rl, decode_naddr_core payload = .ok (k, pk, id, rl) →
        ∃ v, (getTlv (_parse_tlvs payload) 3).head? = some v ∧ v.length = 4 ∧
          k = beBytes v) ∧
      (getTlv (_parse_tlvs payload) 0 = [] → ∃ e, decode_naddr_core payload = .error e) ∧
      (getTlv (_parse_tlvs payload) 2 = [] → ∃ e, decode_naddr_core payload = .error e) := by
  intro payload
  rcases h0 : getTlv (_parse_tlvs payload) 0 with _ | ⟨id0, ids⟩
  · exact ⟨fun v hv hlen => by simp [decode_naddr_core, h0],
      fun k pk id rl h => by simp [decode_naddr_core, h0] at h,
      fun _ => by simp [decode_naddr_core, h0],
      fun _ => by simp [decode_naddr_core, h0]⟩
  · by_cases hu : utf8Valid id0
    · rcases h2 : getTlv (_parse_tlvs payload) 2 with _ | ⟨a0, as⟩
      · exact ⟨fun v hv hlen => by simp [decode_naddr_core, h0, h2, hu],
          fun k pk id rl h => by simp [decode_naddr_core, h0, h2, hu] at h,
          fun h => by simp [h0] at h,
          fun _ => by simp [decode_naddr_core, h0, h2, hu]⟩
      · by_cases ha : a0.length = 32
        · rcases h3 : getTlv (_parse_tlvs payload) 3 with _ | ⟨k0, ks⟩
          · exact ⟨fun v hv hlen => by simp [h3] at hv,
              fun k pk id rl h => by simp [decode_naddr_core, h0, h2, h3, hu, ha] at h,
              fun h => by simp [h0] at h, fun h => by simp [h2] at h⟩
          · by_cases hk : k0.length = 4
            · refine ⟨fun v hv hlen => ?_, fun k pk id rl h => ?_,
                fun h => by simp [h0] at h, fun h => by simp [h2] at h⟩
              · simp only [h3, List.head?_cons, Option.some_inj] at hv
                exact absurd (hv ▸ hk) hlen
              · simp only [decode_naddr_core, h0, h2, h3, hu, ha, hk] at h
                simp at h
                exact ⟨k0, by simp [h3], hk, h.1.symm⟩
            · exact ⟨fun v hv hlen => by simp [decode_naddr_core, h0, h2, h3, hu, ha, hk],
                fun k pk id rl h => by simp [decode_naddr_core, h0, h2, h3, hu, ha, hk] at h,
                fun h => by simp [h0] at h, fun h => by simp [h2] at h⟩
        · exact ⟨fun v hv hlen => by simp [decode_naddr_core, h0, h2, hu, ha],
            fun k pk id rl h => by simp [decode_naddr_core, h0, h2, hu, ha] at h,
            fun h => by simp [h0] at h, fun h => by simp [h2] at h⟩
    · exact ⟨fun v hv hlen => by simp [decode_naddr_core, h0, hu],
        fun k pk id rl h => by simp [decode_naddr_core, h0, hu] at h,
        fun h => by simp [h0] at h,
        fun _ => by simp [decode_naddr_core, h0, hu]⟩

/-- Witness for C3: a payload whose TLV type-3 value has 3 bytes is rejected,
and the same payload with a 4-byte kind `0x0000012C` decodes with kind 300. -/
theorem decode_naddr_kind_strict_witness :
    (∃ e, decode_naddr_core ([0, 2, 104, 105] ++ [2, 32] ++ List.replicate 32 7
      ++ [3, 3, 0, 1, 44]) = .error e) ∧
    (∃ v, (getTlv (_parse_tlvs ([0, 2, 104, 105] ++ [2, 32] ++ List.replicate 32 7
      ++ [3, 4, 0, 0, 1, 44])) 3).head? = some v ∧ v.length = 4 ∧ 300 = beBytes v) :=
  ⟨(decode_naddr_kind_strict _).1 [0, 1, 44] (by decide) (by decide),
   (decode_naddr_kind_strict _).2.1 300 (List.replicate 32 7) [104, 105] []
     (by decide)⟩

/-! ## Claim C4 (corrected) -/

/-- Counterexample to C4 as stated: a payload carrying *two* 32-byte TLV
type-0 values (so not "exactly one") is decoded successfully using the first
one, instead of failing with a missing-field error. -/
theorem decode_nprofile_two_pubkeys_counterexample :
    (getTlv (_parse_tlvs ([0, 32] ++ List.replicate 32 5 ++ [0, 32]
        ++ List.replicate 32 9)) 0).length = 2 ∧
    decode_nprofile_core ([0, 32] ++ List.replicate 32 5 ++ [0, 32]
        ++ List.replicate 32 9) = .ok (List.replicate 32 5, []) := by decide

/-- C4 as amended: `decode_nprofile` requires TLV type 0 to be present with
its *first* value exactly 32 bytes (later type-0 values are ignored), failing
with the missing-field error otherwise; TLV type 1 values are UTF-8-decoded
one by one and collected in buffer order, silently dropping any value that is
not valid UTF-8 without failing the decode. -/
theorem decode_nprofile_first_pubkey_and_relays :
    ∀ payload : List Nat,
      (∀ pk rl, decode_nprofile_core payload = .ok (pk, rl) →
        (getTlv (_parse_tlvs payload) 0).head? = some pk ∧ pk.length = 32 ∧
          rl = collectRelays (getTlv (_parse_tlvs payload) 1)) ∧
      ((getTlv (_parse_tlvs payload) 0 = [] ∨
        (∃ v, (getTlv (_parse_tlvs payload) 0).head? = some v ∧ v.length ≠ 32)) →
        ∃ e, decode_nprofile_core payload = .error e) := by
  intro payload
  rcases h0 : getTlv (_parse_tlvs payload) 0 with _ | ⟨pk0, pks⟩
  · exact ⟨fun pk rl h => by simp [decode_nprofile_core, h0] at h,
      fun _ => by simp [decode_nprofile_core, h0]⟩
  · by_cases hl : pk0.length = 32
    · refine ⟨fun pk rl h => ?_, fun h => ?_⟩
      · simp only [decode_nprofile_core, h0, hl] at h
        simp at h
        exact ⟨by simp [h0, ← h.1], h.1 ▸ hl, h.2.symm⟩
      · rcases h with h | ⟨v, hv, hvl⟩
        · simp [h0] at h
        · simp only [h0, List.head?_cons, Option.some_inj] at hv
          exact absurd (hv ▸ hl) hvl
    · exact ⟨fun pk rl h => by simp [decode_nprofile_core, h0, hl] at h,
        fun _ => by simp [decode_nprofile_core, h0, hl]⟩

/-- Witness for C4 (amended): a payload with one 32-byte pubkey, one valid
UTF-8 relay and one invalid relay decodes to that pubkey with only the valid
relay kept, and a payload whose first type-0 value has 31 bytes fails. -/
theorem decode_nprofile_first_pubkey_witness :
    ((getTlv (_parse_tlvs ([0, 32] ++ List.replicate 32 5 ++ [1, 2, 255, 255]
        ++ [1, 2, 111, 107])) 0).head? = some (List.replicate 32 5) ∧
      (List.replicate 32 5).length = 32 ∧
      ([[111, 107]] : List (List Nat)) = collectRelays (getTlv (_parse_tlvs
        ([0, 32] ++ List.replicate 32 5 ++ [1, 2, 255, 255] ++ [1, 2, 111, 107])) 1)) ∧
    (∃ e, decode_nprofile_core ([0, 31] ++ List.replicate 31 5) = .error e) :=
  ⟨(decode_nprofile_first_pubkey_and_relays _).1 (List.replicate 32 5) [[111, 107]]
      (by decide),
   (decode_nprofile_first_pubkey_and_relays _).2 (.inr ⟨List.replicate 31 5,
      by decide, by decide⟩)⟩

/-! ## Claim C5 -/

/-- C5: `resolve_naddr_to_event_id` queries the embedded relay list when
non-empty and the fallback list otherwise, builds one filter carrying the
address's author, kind and identifier with result limit 1, fetches once with
an 8-second timeout, fails when zero results return, and the outcome depends
on a single application of the transport (no internal retry loop). -/
theorem resolve_naddr_single_query :
    ∀ (addr : NAddress) (relay_urls : List (List Nat)) (fetch : FetchEvents),
      (addr.relays ≠ [] →
        (if addr.relays = [] then relay_urls else addr.relays) = addr.relays) ∧
      (addr.relays = [] →
        (if addr.relays = [] then relay_urls else addr.relays) = relay_urls) ∧
      (((((NFilter.empty).author addr.author).kind addr.kind).identifier
          addr.identifier).limit 1).authors = [addr.author] ∧
      (((((NFilter.empty).author addr.author).kind addr.kind).identifier
          addr.identifier).limit 1).kinds = [addr.kind] ∧
      (((((NFilter.empty).author addr.author).kind addr.kind).identifier
          addr.identifier).limit 1).identifiers = [addr.identifier] ∧
      (((((NFilter.empty).author addr.author).kind addr.kind).identifier
          addr.identifier).limit 1).limitN = some 1 ∧
      (fetch (if addr.relays = [] then relay_urls else addr.relays)
          (((((NFilter.empty).author addr.author).kind addr.kind).identifier
            addr.identifier).limit 1) 8 = [] →
        resolve_naddr_to_event_id addr relay_urls fetch = .error 0) ∧
      (∀ e rest, fetch (if addr.relays = [] then relay_urls else addr.relays)
          (((((NFilter.empty).author addr.author).kind addr.kind).identifier
            addr.identifier).limit 1) 8 = e :: rest →
        resolve_naddr_to_event_id addr relay_urls fetch = .ok e) ∧
      (∀ fetch' : FetchEvents,
        fetch' (if addr.relays = [] then relay_urls else addr.relays)
            (((((NFilter.empty).author addr.author).kind addr.kind).identifier
              addr.identifier).limit 1) 8 =
          fetch (if addr.relays = [] then relay_urls else addr.relays)
            (((((NFilter.empty).author addr.author).kind addr.kind).identifier
              addr.identifier).limit 1) 8 →
        resolve_naddr_to_event_id addr relay_urls fetch' =
          resolve_naddr_to_event_id addr relay_urls fetch) := by
  intro addr relay_urls fetch
  refine ⟨fun h => by simp [h], fun h => by simp [h], rfl, rfl, rfl, rfl, ?_, ?_, ?_⟩
  · intro h; simp [resolve_naddr_to_event_id, h]
  · intro e rest h; simp [resolve_naddr_to_event_id, h]
  · intro fetch' h; simp [resolve_naddr_to_event_id, h]

/-- Witness for C5: with an empty embedded relay list the fallback relays are
used, and with a transport returning one event the resolver yields its id. -/
theorem resolve_naddr_single_query_witness :
    resolve_naddr_to_event_id ⟨1, [2], [3], []⟩ [[9]] (fun _ _ _ => [[7]]) =
      .ok [7] :=
  (resolve_naddr_single_query ⟨1, [2], [3], []⟩ [[9]]
    (fun _ _ _ => [[7]])).2.2.2.2.2.2.2.1 [7] [] rfl

/-! ## Claims C6 and C10: the retry loop -/

lemma httpLoop_step_bad (t : Transport) (r a : Nat) (last : Option HttpExc)
    (s : List ℚ) (hba : badAttempt t a = true) :
    httpLoop t (r + 1) a last s =
      httpLoop t r (a + 1) (some (excOf t a)) (s ++ [backoff a]) := by
  rcases ht : t a with e | resp
  · simp [httpLoop, ht, excOf]
  · have hrs : retryStatus resp.status_code = true := by
      unfold badAttempt at hba; rw [ht] at hba; exact hba
    simp [httpLoop, ht, hrs, excOf]

lemma httpLoop_step_good (t : Transport) (r a : Nat) (last : Option HttpExc)
    (s : List ℚ) (resp : SimpleResponse) (hok : t a = .ok resp)
    (hgood : retryStatus resp.status_code = false) :
    httpLoop t (r + 1) a last s = (.ok resp, s) := by
  simp [httpLoop, hok, hgood]

lemma backoff_range_shift (a n : Nat) :
    backoff a :: (List.range n).map (fun i => backoff (a + 1 + i)) =
      (List.range (n + 1)).map (fun i => backoff (a + i)) := by
  rw [List.range_succ_eq_map, List.map_cons, List.map_map]
  refine congrArg₂ _ (by simp) ?_
  refine List.map_congr_left (fun i _ => ?_)
  simp [Function.comp]
  congr 1
  omega

lemma httpLoop_exhaust (t : Transport) :
    ∀ (r a : Nat) (last : Option HttpExc) (s : List ℚ),
      0 < r → (∀ i, a ≤ i → i < a + r → badAttempt t i = true) →
      httpLoop t r a last s =
        (.error (excOf t (a + r - 1)), s ++ (List.range r).map (fun i => backoff (a + i))) := by
  intro r
  induction r with
  | zero => intro a last s h; omega
  | succ n ih =>
    intro a last s _ hbad
    have hba : badAttempt t a = true := hbad a (Nat.le_refl a) (by omega)
    rcases Nat.eq_zero_or_pos n with hn | hn
    · subst hn
      rw [httpLoop_step_bad t 0 a last s hba]
      simp [httpLoop, List.range_succ]
    · rw [httpLoop_step_bad t n a last s hba,
        ih (a + 1) _ _ hn (fun i h1 h2 => hbad i (by omega) (by omega))]
      have h1 : a + 1 + n - 1 = a + (n + 1) - 1 := by omega
      rw [h1, List.append_assoc]
      refine congrArg₂ _ rfl (congrArg₂ _ rfl ?_)
      rw [List.singleton_append, backoff_range_shift]

lemma httpLoop_first_good (t : Transport) :
    ∀ (k r a : Nat) (last : Option HttpExc) (s : List ℚ) (resp : SimpleResponse),
      k < r → (∀ i, a ≤ i → i < a + k → badAttempt t i = true) →
      t (a + k) = .ok resp → retryStatus resp.status_code = false →
      httpLoop t r a last s =
        (.ok resp, s ++ (List.range k).map (fun i => backoff (a + i))) := by
  intro k
  induction k with
  | zero =>
    intro r a last s resp hr _ hok hgood
    cases r with
    | zero => omega
    | succ r' =>
      simp only [Nat.add_zero] at hok
      rw [httpLoop_step_good t r' a last s resp hok hgood]
      simp
  | succ n ih =>
    intro r a last s resp hr hbad hok hgood
    cases r with
    | zero => omega
    | succ r' =>
      have hba : badAttempt t a = true := hbad a (Nat.le_refl a) (by omega)
      rw [httpLoop_step_bad t r' a last s hba,
        ih r' (a + 1) _ _ resp (by omega)
          (fun i h1 h2 => hbad i (by omega) (by omega))
          (by rw [← hok]; congr 1; omega) hgood]
      rw [List.append_assoc]
      refine congrArg₂ _ rfl (congrArg₂ _ rfl ?_)
      rw [List.singleton_append, backoff_range_shift]

/-- C6: `http_request` retries exactly after an attempt in which the
transport raised or produced a status ≥ 500 or = 429, sleeping
`0.5 × 2^attempt` seconds before each retry (attempt counted from 0), for at
most `max_retries` attempts; the first response with status < 500 and ≠ 429
(e.g. a 404) is returned immediately with no further sleep, and when every
attempt fails the exception recorded from the last attempt is re-raised. -/
theorem http_request_retry_policy :
    ∀ (t : Transport) (max_retries : Nat),
      (∀ k resp, k < max_retries → (∀ i, i < k → badAttempt t i = true) →
        t k = .ok resp → retryStatus resp.status_code = false →
        http_request t max_retries = (.ok resp, (List.range k).map backoff)) ∧
      (0 < max_retries → (∀ i, i < max_retries → badAttempt t i = true) →
        http_request t max_retries =
          (.error (excOf t (max_retries - 1)), (List.range max_retries).map backoff)) := by
  intro t max_retries
  constructor
  · intro k resp hk hbad hok hgood
    unfold http_request
    rw [httpLoop_first_good t k max_retries 0 none [] resp hk
      (fun i h1 h2 => hbad i (by omega)) (by simpa using hok) hgood]
    simp
  · intro hpos hbad
    unfold http_request
    rw [httpLoop_exhaust t max_retries 0 none [] hpos
      (fun i h1 h2 => hbad i (by omega))]
    simp

/-- Witness for C6: a transport that yields a 500 on attempt 0 and a 404 on
attempt 1 makes `http_request` sleep once (0.5 s) and then return the 404
immediately. -/
theorem http_request_retry_policy_witness :
    http_request (fun i => if i = 0 then .ok ⟨500, [], []⟩ else .ok ⟨404, [], []⟩) 3 =
      (.ok ⟨404, [], []⟩, (List.range 1).map backoff) :=
  (http_request_retry_policy
    (fun i => if i = 0 then .ok ⟨500, [], []⟩ else .ok ⟨404, [], []⟩) 3).1 1
    ⟨404, [], []⟩ (by omega)
    (by intro i hi; interval_cases i <;> decide) (by decide) (by decide)

/-- C10: when every attempt fails, the backoff sleep is performed after every
failed attempt *including the last one*: a fully failed call performs
`max_retries` sleeps, totalling `0.5 × (2^max_retries − 1)` seconds, before
re-raising the exception recorded from the final attempt. -/
theorem http_request_sleeps_after_final_attempt :
    ∀ (t : Transport) (max_retries : Nat),
      0 < max_retries → (∀ i, i < max_retries → badAttempt t i = true) →
      (http_request t max_retries).2.length = max_retries ∧
      (http_request t max_retries).2.sum = (2 ^ max_retries - 1) * (1 / 2 : ℚ) ∧
      (http_request t max_retries).1 = .error (excOf t (max_retries - 1)) := by
  intro t max_retries hpos hbad
  have h := (http_request_retry_policy t max_retries).2 hpos hbad
  rw [h]
  refine ⟨by simp, ?_, rfl⟩
  clear h hbad hpos
  induction max_retries with
  | zero => simp
  | succ n ih =>
    rw [List.range_succ, List.map_append, List.sum_append]
    rw [ih]
    simp [backoff]
    ring

/-- Witness for C10: a transport failing on both attempts of a
`max_retries = 2` call: two sleeps totalling 1.5 s, then the final
exception. -/
theorem http_request_sleeps_witness :
    (http_request (fun i => .error i) 2).2.length = 2 ∧
    (http_request (fun i => .error i) 2).2.sum = (2 ^ 2 - 1) * (1 / 2 : ℚ) ∧
    (http_request (fun i => .error i) 2).1 = .error (excOf (fun i => .error i) 1) :=
  http_request_sleeps_after_final_attempt (fun i => .error i) 2 (by omega)
    (by intro i hi; interval_cases i <;> decide)

/-! ## Bit-arithmetic helpers for the regrouping characterization -/

lemma lor_shiftLeft_eq_add (a v n : Nat) (hv : v < 2 ^ n) :
    a <<< n ||| v = 2 ^ n * a + v := by
  apply Nat.eq_of_testBit_eq
  intro j
  rw [Nat.testBit_mul_pow_two_add a hv j]
  simp only [Nat.testBit_or, Nat.testBit_shiftLeft]
  rcases Nat.lt_or_ge j n with hj | hj
  · simp [Nat.not_le_of_lt hj, hj]
  · have hvj : Nat.testBit v j = false :=
      Nat.testBit_eq_false_of_lt
        (lt_of_lt_of_le hv (Nat.pow_le_pow_right (by norm_num) hj))
    simp [hj, Nat.not_lt_of_le hj, hvj]

lemma mul_mod_pow_eq (a b : Nat) (hb : b ≤ 8) :
    a * 2 ^ (8 - b) % 2 ^ 8 = a % 2 ^ b * 2 ^ (8 - b) := by
  have hpow : (2 : Nat) ^ b * 2 ^ (8 - b) = 2 ^ 8 := by
    rw [← pow_add]; congr 1; omega
  calc a * 2 ^ (8 - b) % 2 ^ 8
      = (2 ^ b * (a / 2 ^ b) + a % 2 ^ b) * 2 ^ (8 - b) % 2 ^ 8 := by
        rw [Nat.div_add_mod]
    _ = (2 ^ 8 * (a / 2 ^ b) + a % 2 ^ b * 2 ^ (8 - b)) % 2 ^ 8 := by
        rw [← hpow]; ring_nf
    _ = a % 2 ^ b * 2 ^ (8 - b) % 2 ^ 8 := by rw [Nat.mul_add_mod]
    _ = a % 2 ^ b * 2 ^ (8 - b) := by
        apply Nat.mod_eq_of_lt
        calc a % 2 ^ b * 2 ^ (8 - b) < 2 ^ b * 2 ^ (8 - b) :=
              (Nat.mul_lt_mul_right (Nat.two_pow_pos _)).mpr
                (Nat.mod_lt _ (Nat.two_pow_pos _))
          _ = 2 ^ 8 := hpow

lemma mod_pow_div_mod (x a m : Nat) (h : a + 8 ≤ m) :
    x % 2 ^ m / 2 ^ a % 2 ^ 8 = x / 2 ^ a % 2 ^ 8 := by
  have hm : (2 : Nat) ^ m = 2 ^ a * 2 ^ (m - a) := by
    rw [← pow_add]; congr 1; omega
  rw [hm, Nat.mod_mul_right_div_self]
  exact Nat.mod_mod_of_dvd _ (pow_dvd_pow 2 (by omega))

lemma shiftRight_word_absorb (V v bits : Nat) (hv : v < 32) :
    (V * 32 + v) >>> (bits + 5) = V >>> bits := by
  rw [Nat.shiftRight_eq_div_pow, Nat.shiftRight_eq_div_pow, pow_add]
  have h32 : (2 : Nat) ^ 5 = 32 := by norm_num
  rw [h32, Nat.mul_comm (2 ^ bits) 32, ← Nat.div_div_eq_div_mul]
  congr 1
  rw [Nat.mul_comm V 32, Nat.mul_add_div (by norm_num)]
  simp [Nat.div_eq_of_lt hv]

/-! ## Characterization of `_convertbits` with `frombits = 5`, `tobits = 8`,
`pad = false` -/

/-- The value of the 5-bit symbol stream read as one big big-endian number:
the mathematical content of the regrouping. -/
def streamVal (ws : List Nat) : Nat := ws.foldl (fun a v => a * 32 + v) 0

/-- Big-endian value of a byte string. -/
def beVal (bs : List Nat) : Nat := bs.foldl (fun a v => a * 256 + v) 0

/-- `streamVal` continued from an arbitrary prefix value. -/
def pushWords (V : Nat) (ws : List Nat) : Nat := ws.foldl (fun a v => a * 32 + v) V

lemma beVal_append_one (l : List Nat) (b : Nat) :
    beVal (l ++ [b]) = beVal l * 256 + b := by
  simp [beVal, List.foldl_append]

lemma cbLoopF_succ (tobits maxv fuel acc bits : Nat) :
    cbLoopF tobits maxv (fuel + 1) acc bits =
      if 0 < tobits ∧ tobits ≤ bits then
        (((acc >>> (bits - tobits)) &&& maxv) ::
            (cbLoopF tobits maxv fuel acc (bits - tobits)).1,
          (cbLoopF tobits maxv fuel acc (bits - tobits)).2)
      else ([], bits) := rfl

lemma cbLoopF_under (tobits maxv : Nat) :
    ∀ fuel acc bits, bits < tobits → cbLoopF tobits maxv fuel acc bits = ([], bits) := by
  intro fuel acc bits h
  cases fuel with
  | zero => rfl
  | succ n => rw [cbLoopF_succ, if_neg (by omega)]

lemma cbLoop58 (acc bits : Nat) (hb : bits < 16) :
    cbLoop acc bits 8 255 =
      if 8 ≤ bits then ([(acc >>> (bits - 8)) &&& 255], bits - 8) else ([], bits) := by
  rcases Nat.lt_or_ge bits 8 with h | h
  · rw [if_neg (by omega)]
    exact cbLoopF_under 8 255 bits acc bits h
  · rw [if_pos h]
    obtain ⟨k, hk, rfl⟩ : ∃ k, k < 8 ∧ bits = k + 8 := ⟨bits - 8, by omega, by omega⟩
    show cbLoopF 8 255 (k + 8) acc (k + 8) = _
    have hfuel : k + 8 = k + 7 + 1 := by omega
    rw [hfuel, cbLoopF_succ, if_pos (by omega)]
    have hk8 : k + 7 + 1 - 8 = k := by omega
    rw [hk8, cbLoopF_under 8 255 (k + 7) acc k hk]

lemma cbGo58 : ∀ (ws : List Nat) (V bits : Nat) (ret : List Nat),
    (∀ v ∈ ws, v < 32) → bits < 8 → beVal ret = V >>> bits →
    ∃ out : List Nat,
      cbGo 5 8 255 4095 ws (V % 4096) bits ret =
        some (pushWords V ws % 4096, (bits + 5 * ws.length) % 8, ret ++ out) ∧
      beVal (ret ++ out) = pushWords V ws >>> ((bits + 5 * ws.length) % 8) ∧
      8 * (ret ++ out).length + (bits + 5 * ws.length) % 8 =
        8 * ret.length + bits + 5 * ws.length := by
  intro ws
  induction ws with
  | nil =>
    intro V bits ret _ hbits hinv
    refine ⟨[], ?_, ?_, ?_⟩
    · simp [cbGo, pushWords, Nat.mod_eq_of_lt hbits]
    · simpa [pushWords, Nat.mod_eq_of_lt hbits] using hinv
    · simp [Nat.mod_eq_of_lt hbits]
  | cons v vs ih =>
    intro V bits ret h32 hbits hinv
    have hv : v < 32 := h32 v (List.mem_cons_self v vs)
    have hv32 : v < 2 ^ 5 := by norm_num; omega
    have hguard : v >>> 5 = 0 := by
      rw [Nat.shiftRight_eq_div_pow]
      exact Nat.div_eq_of_lt hv32
    have hacc' : ((V % 4096) <<< 5 ||| v) &&& 4095 = (V * 32 + v) % 4096 := by
      rw [lor_shiftLeft_eq_add _ v 5 hv32]
      have h4095 : (4095 : Nat) = 2 ^ 12 - 1 := by norm_num
      rw [h4095, Nat.and_pow_two_sub_one_eq_mod]
      have h12 : (2 : Nat) ^ 12 = 4096 := by norm_num
      have h5 : (2 : Nat) ^ 5 = 32 := by norm_num
      rw [h12, h5]
      omega
    have habsorb : (V * 32 + v) >>> (bits + 5) = V >>> bits :=
      shiftRight_word_absorb V v bits hv
    have hlen5 : bits + 5 * (v :: vs).length = bits + 5 + 5 * vs.length := by
      simp only [List.length_cons]; omega
    have hpush : pushWords V (v :: vs) = pushWords (V * 32 + v) vs := rfl
    rcases Nat.lt_or_ge (bits + 5) 8 with hlow | hhigh
    · -- no byte is emitted for this word
      have hloop : cbLoop ((V * 32 + v) % 4096) (bits + 5) 8 255 = ([], bits + 5) := by
        rw [cbLoop58 _ _ (by omega), if_neg (by omega)]
      have hinv2 : beVal ret = (V * 32 + v) >>> (bits + 5) := by rw [habsorb]; exact hinv
      obtain ⟨out, hgo, hbe, hlen⟩ := ih (V * 32 + v) (bits + 5) ret
        (fun w hw => h32 w (List.mem_cons_of_mem v hw)) (by omega) hinv2
      refine ⟨out, ?_, ?_, ?_⟩
      · simp only [cbGo]
        rw [if_neg (by simp [hguard])]
        rw [hacc', hloop]
        simp only [List.append_nil]
        rw [hgo, hpush, hlen5]
      · rw [hpush, hlen5]
        exact hbe
      · rw [hlen5]
        omega
    · -- exactly one byte is emitted for this word
      have hbyte : ((V * 32 + v) % 4096) >>> (bits + 5 - 8) &&& 255 =
          (V * 32 + v) >>> (bits + 5 - 8) % 256 := by
        have h255 : (255 : Nat) = 2 ^ 8 - 1 := by norm_num
        rw [h255, Nat.and_pow_two_sub_one_eq_mod, Nat.shiftRight_eq_div_pow,
          Nat.shiftRight_eq_div_pow]
        have h4096 : (4096 : Nat) = 2 ^ 12 := by norm_num
        have h256 : (256 : Nat) = 2 ^ 8 := by norm_num
        rw [h4096, h256]
        exact mod_pow_div_mod (V * 32 + v) (bits + 5 - 8) 12 (by omega)
      have hloop : cbLoop ((V * 32 + v) % 4096) (bits + 5) 8 255 =
          ([(V * 32 + v) >>> (bits + 5 - 8) % 256], bits + 5 - 8) := by
        rw [cbLoop58 _ _ (by omega), if_pos (by omega), hbyte]
      have hchain : beVal (ret ++ [(V * 32 + v) >>> (bits + 5 - 8) % 256]) =
          (V * 32 + v) >>> (bits + 5 - 8) := by
        rw [beVal_append_one, hinv]
        have habs2 : (V * 32 + v) >>> (bits + 5 - 8 + 8) = V >>> bits := by
          have he : bits + 5 - 8 + 8 = bits + 5 := by omega
          rw [he, habsorb]
        rw [← habs2, Nat.shiftRight_add _ (bits + 5 - 8) 8]
        have hdiv : ((V * 32 + v) >>> (bits + 5 - 8)) >>> 8 =
            (V * 32 + v) >>> (bits + 5 - 8) / 256 := by
          rw [Nat.shiftRight_eq_div_pow]
        rw [hdiv]
        omega
      obtain ⟨out, hgo, hbe, hlen⟩ := ih (V * 32 + v) (bits + 5 - 8)
        (ret ++ [(V * 32 + v) >>> (bits + 5 - 8) % 256])
        (fun w hw => h32 w (List.mem_cons_of_mem v hw)) (by omega) hchain
      have harr : ret ++ [(V * 32 + v) >>> (bits + 5 - 8) % 256] ++ out =
          ret ++ ((V * 32 + v) >>> (bits + 5 - 8) % 256 :: out) := by simp
      have harith : bits + 5 - 8 + 5 * vs.length = (bits + 5 + 5 * vs.length) - 8 := by
        omega
      have hmod : (bits + 5 - 8 + 5 * vs.length) % 8 = (bits + 5 + 5 * vs.length) % 8 := by
        omega
      refine ⟨(V * 32 + v) >>> (bits + 5 - 8) % 256 :: out, ?_, ?_, ?_⟩
      · simp only [cbGo]
        rw [if_neg (by simp [hguard])]
        rw [hacc', hloop]
        rw [hgo, harr, hpush, hlen5, hmod]
      · rw [harr] at hbe
        rw [hpush, hlen5, ← hmod]
        exact hbe
      · rw [harr] at hlen
        rw [hlen5, ← hmod]
        simp only [List.length_append, List.length_cons, List.length_nil] at hlen ⊢
        omega

/-- Characterization of the final 5-bit-to-8-bit regrouping
(`_convertbits(words, 5, 8, False)`): it fails exactly when the remainder of
the bit stream is ≥ 5 bits or non-zero, and on success the produced bytes are
the stream value shifted past the remainder. -/
lemma convertbits58 (ws : List Nat) (h32 : ∀ v ∈ ws, v < 32) :
    (_convertbits ws 5 8 false = none ↔
      5 ≤ 5 * ws.length % 8 ∨ streamVal ws % 2 ^ (5 * ws.length % 8) ≠ 0) ∧
    (∀ bs, _convertbits ws 5 8 false = some bs →
      beVal bs = streamVal ws >>> (5 * ws.length % 8) ∧
      bs.length = 5 * ws.length / 8) := by
  obtain ⟨out, hgo, hbe, hlen⟩ := cbGo58 ws 0 0 [] h32 (by omega) (by simp [beVal])
  have hstream : pushWords 0 ws = streamVal ws := rfl
  have hgo' : cbGo 5 8 255 4095 ws 0 0 [] =
      some (streamVal ws % 4096, 5 * ws.length % 8, out) := by
    rw [← hstream]
    simpa using hgo
  have hbe' : beVal out = streamVal ws >>> (5 * ws.length % 8) := by
    rw [← hstream]
    simpa using hbe
  have hlen' : 8 * out.length + 5 * ws.length % 8 = 5 * ws.length := by
    simpa using hlen
  have hcv : _convertbits ws 5 8 false =
      if 5 ≤ 5 * ws.length % 8 ∨
          ((streamVal ws % 4096) <<< (8 - 5 * ws.length % 8)) &&& 255 ≠ 0 then none
      else some out := by
    show (match cbGo 5 8 ((1 <<< 8) - 1) ((1 <<< (5 + 8 - 1)) - 1) ws 0 0 [] with
      | none => none
      | some (acc, bits, ret) =>
        if (false : Bool) then
          if bits ≠ 0 then some (ret ++ [(acc <<< (8 - bits)) &&& ((1 <<< 8) - 1)])
          else some ret
        else if bits ≥ 5 ∨ (acc <<< (8 - bits)) &&& ((1 <<< 8) - 1) ≠ 0 then none
        else some ret) = _
    have h255 : (1 <<< 8 : Nat) - 1 = 255 := by decide
    have h4095 : (1 <<< (5 + 8 - 1) : Nat) - 1 = 4095 := by decide
    rw [h255, h4095, hgo']
    simp only [Bool.false_eq_true, if_false]
  have hmask : ((streamVal ws % 4096) <<< (8 - 5 * ws.length % 8)) &&& 255 =
      streamVal ws % 2 ^ (5 * ws.length % 8) * 2 ^ (8 - 5 * ws.length % 8) := by
    have h255 : (255 : Nat) = 2 ^ 8 - 1 := by norm_num
    rw [Nat.shiftLeft_eq, h255, Nat.and_pow_two_sub_one_eq_mod,
      mul_mod_pow_eq (streamVal ws % 4096) (5 * ws.length % 8) (by omega)]
    have hmm : streamVal ws % 4096 % 2 ^ (5 * ws.length % 8) =
        streamVal ws % 2 ^ (5 * ws.length % 8) := by
      have h4096 : (4096 : Nat) = 2 ^ 12 := by norm_num
      rw [h4096]
      exact Nat.mod_mod_of_dvd _ (pow_dvd_pow 2 (by omega))
    rw [hmm]
  have hne : (((streamVal ws % 4096) <<< (8 - 5 * ws.length % 8)) &&& 255 ≠ 0) ↔
      streamVal ws % 2 ^ (5 * ws.length % 8) ≠ 0 := by
    rw [hmask]
    simp [Nat.mul_eq_zero, (Nat.two_pow_pos (8 - 5 * ws.length % 8)).ne']
  constructor
  · rw [hcv]
    by_cases hd : 5 ≤ 5 * ws.length % 8 ∨ streamVal ws % 2 ^ (5 * ws.length % 8) ≠ 0
    · rw [if_pos (by rw [hne]; exact hd)]
      simp [hd]
    · rw [if_neg (by rw [hne]; exact hd)]
      simp [hd]
  · intro bs hbs
    rw [hcv] at hbs
    by_cases hc : 5 ≤ 5 * ws.length % 8 ∨
        ((streamVal ws % 4096) <<< (8 - 5 * ws.length % 8)) &&& 255 ≠ 0
    · rw [if_pos hc] at hbs; exact absurd hbs (by simp)
    · rw [if_neg hc] at hbs
      obtain rfl : out = bs := by injection hbs
      exact ⟨hbe', by omega⟩

/-! ## Claim C1 -/

/-- The claim's first failure condition: `s` mixes upper and lower case. -/
def mixesCase (s : List Nat) : Prop := s.map pyLower ≠ s ∧ s.map pyUpper ≠ s

/-- The claim's second failure condition: some character is outside printable
ASCII `[33, 126]`. -/
def hasOutOfRange (s : List Nat) : Prop := ∃ c ∈ s, c < 33 ∨ 126 < c

/-- The separator is well placed in the lowercased string `b`: the rightmost
`'1'` sits at offset ≥ 1 and leaves at least 6 trailing characters. -/
def sepOk (b : List Nat) (pos : Nat) : Prop :=
  rfind1 b = some pos ∧ 1 ≤ pos ∧ ¬(pos < 1 ∨ pos + 7 > b.length)

/-- The claim's final failure condition: the 5-bit-to-8-bit regrouping has a
remainder that is ≥ 5 bits or non-zero. -/
def regroupFail (ws : List Nat) : Prop :=
  5 ≤ 5 * ws.length % 8 ∨ streamVal ws % 2 ^ (5 * ws.length % 8) ≠ 0

/-- The disjunction of failure conditions of claim C1, phrased over the
lowercased string exactly as the claim lists them. -/
def c1Fails (s : List Nat) : Prop :=
  mixesCase s ∨ hasOutOfRange s ∨
  (∀ pos, ¬ sepOk (s.map pyLower) pos) ∨
  (∃ pos, sepOk (s.map pyLower) pos ∧
    mapWords ((s.map pyLower).drop (pos + 1)) = none) ∨
  (∃ pos ws, sepOk (s.map pyLower) pos ∧
    mapWords ((s.map pyLower).drop (pos + 1)) = some ws ∧
    _bech32_polymod (_bech32_hrp_expand ((s.map pyLower).take pos) ++ ws) ≠ 1) ∨
  (∃ pos ws, sepOk (s.map pyLower) pos ∧
    mapWords ((s.map pyLower).drop (pos + 1)) = some ws ∧
    _bech32_polymod (_bech32_hrp_expand ((s.map pyLower).take pos) ++ ws) = 1 ∧
    regroupFail (ws.take (ws.length - 6)))

lemma any_range_iff (s : List Nat) :
    (s.any (fun c => c < 33 || 126 < c) = true) ↔ hasOutOfRange s := by
  simp [hasOutOfRange, List.any_eq_true]

lemma lookupIdx_lt_length (c : Nat) : ∀ (l : List Nat) (i : Nat),
    lookupIdx c l = some i → i < l.length := by
  intro l
  induction l with
  | nil => intro i h; cases h
  | cons x rest ih =>
    intro i h
    by_cases hx : x = c
    · simp only [lookupIdx, if_pos hx, Option.some_inj] at h
      simp [← h]
    · simp only [lookupIdx, if_neg hx, Option.map_eq_some'] at h
      obtain ⟨j, hj, rfl⟩ := h
      have := ih j hj
      simp only [List.length_cons]
      omega

lemma charsetIdx_lt32 (c w : Nat) (h : charsetIdx c = some w) : w < 32 := by
  have hl := lookupIdx_lt_length c CHARSET w h
  have hlen : CHARSET.length = 32 := rfl
  omega

lemma mapWords_lt32 : ∀ (l ws : List Nat), mapWords l = some ws →
    ∀ w ∈ ws, w < 32 := by
  intro l
  induction l with
  | nil =>
    intro ws h w hw
    simp only [mapWords, Option.some_inj] at h
    subst h
    cases hw
  | cons c rest ih =>
    intro ws h w hw
    simp only [mapWords] at h
    cases hc : charsetIdx c with
    | none => rw [hc] at h; cases h
    | some w0 =>
      rw [hc] at h
      cases hm : mapWords rest with
      | none => rw [hm] at h; cases h
      | some ws0 =>
        rw [hm] at h
        simp only [Option.some_inj] at h
        subst h
        rcases List.mem_cons.mp hw with rfl | hw'
        · exact charsetIdx_lt32 c w hc
        · exact ih ws0 hm w hw'

/-- C1: `_nip19_payload` (bech32 decode + 5→8 regroup) fails — with no
partial result — exactly when the input mixes case, has a character outside
[33,126], has its rightmost `'1'` at offset < 1 or with fewer than 6 trailing
characters (or no `'1'` at all), has a data character outside the 32-symbol
alphabet, fails the polymod-equals-1 checksum over the prefix expansion plus
data, or leaves a regrouping remainder ≥ 5 bits or non-zero; otherwise it
returns the lowercased prefix and the regrouped bytes of the data with the
trailing 6 checksum symbols stripped. -/
theorem nip19_payload_failure_characterization :
    ∀ bech : List Nat,
      (_nip19_payload bech = none ↔ c1Fails bech) ∧
      (∀ hrp pb, _nip19_payload bech = some (hrp, pb) →
        ∃ pos ws, sepOk (bech.map pyLower) pos ∧
          hrp = (bech.map pyLower).take pos ∧
          mapWords ((bech.map pyLower).drop (pos + 1)) = some ws ∧
          beVal pb = streamVal (ws.take (ws.length - 6)) >>>
            (5 * (ws.take (ws.length - 6)).length % 8) ∧
          pb.length = 5 * (ws.take (ws.length - 6)).length / 8) := by
  intro bech
  by_cases hif : (bech.map pyLower ≠ bech ∧ bech.map pyUpper ≠ bech) ∨
      bech.any (fun c => c < 33 || 126 < c) = true
  · have hdec : _bech32_decode_to_words bech = none := by
      unfold _bech32_decode_to_words
      rw [if_pos hif]
    have hnp : _nip19_payload bech = none := by simp [_nip19_payload, hdec]
    refine ⟨?_, ?_⟩
    · rw [hnp]
      constructor
      · intro _
        rcases hif with hmix | hrange
        · exact Or.inl hmix
        · exact Or.inr (Or.inl ((any_range_iff bech).mp hrange))
      · intro _; rfl
    · intro hrp pb h; rw [hnp] at h; cases h
  · cases hpos : rfind1 (bech.map pyLower) with
    | none =>
      have hdec : _bech32_decode_to_words bech = none := by
        unfold _bech32_decode_to_words
        rw [if_neg hif]
        simp only [hpos]
      have hnp : _nip19_payload bech = none := by simp [_nip19_payload, hdec]
      refine ⟨?_, ?_⟩
      · rw [hnp]
        constructor
        · intro _
          refine Or.inr (Or.inr (Or.inl (fun pos hsep => ?_)))
          have h1 := hsep.1
          rw [hpos] at h1
          exact Option.noConfusion h1
        · intro _; rfl
      · intro hrp pb h; rw [hnp] at h; cases h
    | some pos =>
      by_cases hguard : pos < 1 ∨ pos + 7 > (bech.map pyLower).length
      · have hdec : _bech32_decode_to_words bech = none := by
          unfold _bech32_decode_to_words
          rw [if_neg hif]
          simp only [hpos]
          rw [if_pos hguard]
        have hnp : _nip19_payload bech = none := by simp [_nip19_payload, hdec]
        refine ⟨?_, ?_⟩
        · rw [hnp]
          constructor
          · intro _
            refine Or.inr (Or.inr (Or.inl (fun pos' hsep => ?_)))
            have h1 := hsep.1
            rw [hpos] at h1
            have hpp : pos' = pos := (Option.some_inj.mp h1).symm
            subst hpp
            exact hsep.2.2 hguard
          · intro _; rfl
        · intro hrp pb h; rw [hnp] at h; cases h
      · have hsep : sepOk (bech.map pyLower) pos := ⟨hpos, by omega, hguard⟩
        cases hmw : mapWords ((bech.map pyLower).drop (pos + 1)) with
        | none =>
          have hdec : _bech32_decode_to_words bech = none := by
            unfold _bech32_decode_to_words
            rw [if_neg hif]
            simp only [hpos]
            rw [if_neg hguard]
            simp only [hmw]
          have hnp : _nip19_payload bech = none := by simp [_nip19_payload, hdec]
          refine ⟨?_, ?_⟩
          · rw [hnp]
            constructor
            · intro _
              exact Or.inr (Or.inr (Or.inr (Or.inl ⟨pos, hsep, hmw⟩)))
            · intro _; rfl
          · intro hrp pb h; rw [hnp] at h; cases h
        | some ws =>
          by_cases hck : _bech32_polymod
              (_bech32_hrp_expand ((bech.map pyLower).take pos) ++ ws) = 1
          · have hdec : _bech32_decode_to_words bech =
                some ((bech.map pyLower).take pos, ws.take (ws.length - 6)) := by
              unfold _bech32_decode_to_words
              rw [if_neg hif]
              simp only [hpos]
              rw [if_neg hguard]
              simp only [hmw]
              rw [if_neg (by simp [_bech32_verify_checksum, hck])]
            have h32 : ∀ w ∈ ws.take (ws.length - 6), w < 32 := fun w hw =>
              mapWords_lt32 _ _ hmw w (List.take_subset _ _ hw)
            obtain ⟨hnone_iff, hsome⟩ := convertbits58 (ws.take (ws.length - 6)) h32
            cases hcb : _convertbits (ws.take (ws.length - 6)) 5 8 false with
            | none =>
              have hnp : _nip19_payload bech = none := by
                simp [_nip19_payload, hdec, hcb]
              refine ⟨?_, ?_⟩
              · rw [hnp]
                constructor
                · intro _
                  exact Or.inr (Or.inr (Or.inr (Or.inr (Or.inr
                    ⟨pos, ws, hsep, hmw, hck, hnone_iff.mp hcb⟩))))
                · intro _; rfl
              · intro hrp pb h; rw [hnp] at h; cases h
            | some pb0 =>
              have hnp : _nip19_payload bech =
                  some ((bech.map pyLower).take pos, pb0) := by
                simp [_nip19_payload, hdec, hcb]
              refine ⟨?_, ?_⟩
              · rw [hnp]
                constructor
                · intro h; cases h
                · intro hfail
                  exfalso
                  rcases hfail with hmix | hrange | hnosep | ⟨p', hsep', hmw'⟩ |
                    ⟨p', ws', hsep', hmw', hck'⟩ | ⟨p', ws', hsep', hmw', hck1', hrg⟩
                  · exact hif (Or.inl hmix)
                  · exact hif (Or.inr ((any_range_iff bech).mpr hrange))
                  · exact hnosep pos hsep
                  · obtain rfl : p' = pos := by
                      have h12 := hsep'.1.symm.trans hpos
                      exact Option.some_inj.mp h12.symm |>.symm
                    rw [hmw] at hmw'
                    cases hmw'
                  · obtain rfl : p' = pos := by
                      have h12 := hsep'.1.symm.trans hpos
                      exact Option.some_inj.mp h12.symm |>.symm
                    rw [hmw] at hmw'
                    obtain rfl : ws' = ws := (Option.some_inj.mp hmw').symm
                    exact hck' hck
                  · obtain rfl : p' = pos := by
                      have h12 := hsep'.1.symm.trans hpos
                      exact Option.some_inj.mp h12.symm |>.symm
                    rw [hmw] at hmw'
                    obtain rfl : ws' = ws := (Option.some_inj.mp hmw').symm
                    rw [hnone_iff.mpr hrg] at hcb
                    cases hcb
              · intro hrp pb h
                rw [hnp] at h
                have hpair := Option.some_inj.mp h
                have h1 : (bech.map pyLower).take pos = hrp := congrArg Prod.fst hpair
                have h2 : pb0 = pb := congrArg Prod.snd hpair
                subst h2
                exact ⟨pos, ws, hsep, h1.symm, hmw, (hsome pb0 hcb).1,
                  (hsome pb0 hcb).2⟩
          · have hdec : _bech32_decode_to_words bech = none := by
              unfold _bech32_decode_to_words
              rw [if_neg hif]
              simp only [hpos]
              rw [if_neg hguard]
              simp only [hmw]
              rw [if_pos (by simp [_bech32_verify_checksum, hck])]
            have hnp : _nip19_payload bech = none := by simp [_nip19_payload, hdec]
            refine ⟨?_, ?_⟩
            · rw [hnp]
              constructor
              · intro _
                exact Or.inr (Or.inr (Or.inr (Or.inr (Or.inl
                  ⟨pos, ws, hsep, hmw, hck⟩))))
              · intro _; rfl
            · intro hrp pb h; rw [hnp] at h; cases h

set_option maxRecDepth 10000 in
/-- Witness for C1: the token `"a1pzry9x8gwugfyu"` decodes to prefix `"a"`
and payload bytes `[8, 134, 66, 152, 232]`, whose big-endian value and length
match the regrouping characterization. -/
theorem nip19_payload_characterization_witness :
    ∃ pos ws,
      sepOk (([97, 49, 112, 122, 114, 121, 57, 120, 56, 103, 119, 117, 103, 102,
        121, 117] : List Nat).map pyLower) pos ∧
      ([97] : List Nat) = (([97, 49, 112, 122, 114, 121, 57, 120, 56, 103, 119,
        117, 103, 102, 121, 117] : List Nat).map pyLower).take pos ∧
      mapWords ((([97, 49, 112, 122, 114, 121, 57, 120, 56, 103, 119, 117, 103,
        102, 121, 117] : List Nat).map pyLower).drop (pos + 1)) = some ws ∧
      beVal [8, 134, 66, 152, 232] = streamVal (ws.take (ws.length - 6)) >>>
        (5 * (ws.take (ws.length - 6)).length % 8) ∧
      ([8, 134, 66, 152, 232] : List Nat).length =
        5 * (ws.take (ws.length - 6)).length / 8 :=
  (nip19_payload_failure_characterization
    [97, 49, 112, 122, 114, 121, 57, 120, 56, 103, 119, 117, 103, 102, 121, 117]).2
    [97] [8, 134, 66, 152, 232] (by decide)

/-! ## Polymod algebra: a single changed 5-bit symbol changes the checksum -/

/-- The combined `GEN` contribution of one `polymodStep`, as a function of the
top byte `b`. -/
def gB (b : Nat) : Nat :=
  (List.range 5).foldl
    (fun c i => c ^^^ (if (b >>> i) &&& 1 = 1 then GEN.getD i 0 else 0)) 0

lemma polymodStep_eq (chk v : Nat) :
    polymodStep chk v =
      (((chk &&& 0x1FFFFFF) <<< 5) ^^^ v) ^^^ gB ((chk >>> 25) &&& 0xFF) := by
  have hr : List.range 5 = [0, 1, 2, 3, 4] := rfl
  simp only [polymodStep, gB, hr, List.foldl]
  simp [Nat.xor_assoc]

lemma xor_mod_two_pow (a b n : Nat) :
    (a ^^^ b) % 2 ^ n = a % 2 ^ n ^^^ b % 2 ^ n := by
  apply Nat.eq_of_testBit_eq
  intro i
  simp only [Nat.testBit_mod_two_pow, Nat.testBit_xor]
  by_cases hi : i < n <;> simp [hi]

lemma shiftLeft5_mod32 (a : Nat) : (a <<< 5) % 2 ^ 5 = 0 := by
  rw [Nat.shiftLeft_eq]
  exact Nat.mul_mod_left a (2 ^ 5)

lemma gB_mod32_nodup : ((List.range 32).map (fun b => gB b % 2 ^ 5)).Nodup := by
  decide

lemma gB_mod32_inj (b1 : Nat) (h1 : b1 < 32) (b2 : Nat) (h2 : b2 < 32)
    (h : gB b1 % 2 ^ 5 = gB b2 % 2 ^ 5) : b1 = b2 :=
  List.inj_on_of_nodup_map gB_mod32_nodup (List.mem_range.mpr h1)
    (List.mem_range.mpr h2) h

lemma gB_lt (b : Nat) : gB b < 2 ^ 30 := by
  have hr : List.range 5 = [0, 1, 2, 3, 4] := rfl
  have hterm : ∀ i : Nat, (if (b >>> i) &&& 1 = 1 then GEN.getD i 0 else 0) < 2 ^ 30 := by
    intro i
    split
    · rcases Nat.lt_or_ge i GEN.length with hi | hi
      · have hmem : GEN.getD i 0 ∈ GEN := by
          rw [List.getD_eq_getElem?_getD, List.getElem?_eq_getElem hi]
          exact List.getElem_mem hi
        have hall : ∀ x ∈ GEN, x < 2 ^ 30 := by decide
        exact hall _ hmem
      · rw [List.getD_eq_getElem?_getD, List.getElem?_eq_none hi]
        norm_num
    · norm_num
  simp only [gB, hr, List.foldl]
  exact Nat.xor_lt_two_pow (Nat.xor_lt_two_pow (Nat.xor_lt_two_pow
    (Nat.xor_lt_two_pow (Nat.xor_lt_two_pow (by norm_num) (hterm 0)) (hterm 1))
    (hterm 2)) (hterm 3)) (hterm 4)

lemma mask255_eq (x : Nat) : x &&& 0xFF = x % 2 ^ 8 := by
  have h : (0xFF : Nat) = 2 ^ 8 - 1 := by norm_num
  rw [h, Nat.and_pow_two_sub_one_eq_mod]

lemma mask25_eq (x : Nat) : x &&& 0x1FFFFFF = x % 2 ^ 25 := by
  have h : (0x1FFFFFF : Nat) = 2 ^ 25 - 1 := by norm_num
  rw [h, Nat.and_pow_two_sub_one_eq_mod]

lemma topByte_eq (chk : Nat) (h : chk < 2 ^ 30) :
    (chk >>> 25) &&& 0xFF = chk / 2 ^ 25 ∧ chk / 2 ^ 25 < 32 := by
  have hdiv : chk >>> 25 = chk / 2 ^ 25 := Nat.shiftRight_eq_div_pow chk 25
  have hlt : chk / 2 ^ 25 < 32 := by
    apply (Nat.div_lt_iff_lt_mul (Nat.two_pow_pos 25)).mpr
    calc chk < 2 ^ 30 := h
      _ = 32 * 2 ^ 25 := by norm_num
  refine ⟨?_, hlt⟩
  rw [hdiv, mask255_eq]
  exact Nat.mod_eq_of_lt (by omega)

lemma polymodStep_lt (chk v : Nat) (hv : v < 2 ^ 30) : polymodStep chk v < 2 ^ 30 := by
  rw [polymodStep_eq]
  apply Nat.xor_lt_two_pow _ (gB_lt _)
  apply Nat.xor_lt_two_pow _ hv
  rw [mask25_eq, Nat.shiftLeft_eq]
  calc chk % 2 ^ 25 * 2 ^ 5 < 2 ^ 25 * 2 ^ 5 :=
        (Nat.mul_lt_mul_right (by norm_num)).mpr (Nat.mod_lt _ (by norm_num))
    _ = 2 ^ 30 := by norm_num

lemma polymodStep_inj (chk1 chk2 v : Nat) (h1 : chk1 < 2 ^ 30) (h2 : chk2 < 2 ^ 30)
    (heq : polymodStep chk1 v = polymodStep chk2 v) : chk1 = chk2 := by
  rw [polymodStep_eq, polymodStep_eq] at heq
  obtain ⟨hb1, hb1lt⟩ := topByte_eq chk1 h1
  obtain ⟨hb2, hb2lt⟩ := topByte_eq chk2 h2
  rw [hb1, hb2, mask25_eq, mask25_eq] at heq
  have hm : v % 2 ^ 5 ^^^ gB (chk1 / 2 ^ 25) % 2 ^ 5 =
      v % 2 ^ 5 ^^^ gB (chk2 / 2 ^ 25) % 2 ^ 5 := by
    have hc : (((chk1 % 2 ^ 25) <<< 5 ^^^ v) ^^^ gB (chk1 / 2 ^ 25)) % 2 ^ 5 =
        (((chk2 % 2 ^ 25) <<< 5 ^^^ v) ^^^ gB (chk2 / 2 ^ 25)) % 2 ^ 5 :=
      congrArg (fun x => x % 2 ^ 5) heq
    rw [xor_mod_two_pow, xor_mod_two_pow, shiftLeft5_mod32, Nat.zero_xor,
      xor_mod_two_pow, xor_mod_two_pow, shiftLeft5_mod32, Nat.zero_xor] at hc
    exact hc
  have hbeq : chk1 / 2 ^ 25 = chk2 / 2 ^ 25 :=
    gB_mod32_inj _ hb1lt _ hb2lt (Nat.xor_right_inj.mp hm)
  rw [hbeq] at heq
  have hsh : (chk1 % 2 ^ 25) <<< 5 = (chk2 % 2 ^ 25) <<< 5 :=
    Nat.xor_left_inj.mp (Nat.xor_left_inj.mp heq)
  rw [Nat.shiftLeft_eq, Nat.shiftLeft_eq] at hsh
  have hmod : chk1 % 2 ^ 25 = chk2 % 2 ^ 25 :=
    Nat.eq_of_mul_eq_mul_right (by norm_num) hsh
  have hd1 := Nat.div_add_mod chk1 (2 ^ 25)
  have hd2 := Nat.div_add_mod chk2 (2 ^ 25)
  omega

lemma polymodStep_ne_sym (chk a b : Nat) (hab : a ≠ b) :
    polymodStep chk a ≠ polymodStep chk b := by
  rw [polymodStep_eq, polymodStep_eq]
  intro h
  exact hab (Nat.xor_right_inj.mp (Nat.xor_left_inj.mp h))

lemma foldl_polymod_lt : ∀ (l : List Nat) (c : Nat), (∀ v ∈ l, v < 2 ^ 30) →
    c < 2 ^ 30 → l.foldl polymodStep c < 2 ^ 30 := by
  intro l
  induction l with
  | nil => intro c _ hc; simpa using hc
  | cons v vs ih =>
    intro c hv hc
    rw [List.foldl_cons]
    exact ih _ (fun w hw => hv w (List.mem_cons_of_mem v hw))
      (polymodStep_lt c v (hv v (List.mem_cons_self v vs)))

lemma foldl_polymod_inj : ∀ (l : List Nat) (c1 c2 : Nat), (∀ v ∈ l, v < 2 ^ 30) →
    c1 < 2 ^ 30 → c2 < 2 ^ 30 → c1 ≠ c2 →
    l.foldl polymodStep c1 ≠ l.foldl polymodStep c2 := by
  intro l
  induction l with
  | nil => intro c1 c2 _ _ _ hne; simpa using hne
  | cons v vs ih =>
    intro c1 c2 hv hc1 hc2 hne
    rw [List.foldl_cons, List.foldl_cons]
    have hvlt : v < 2 ^ 30 := hv v (List.mem_cons_self v vs)
    exact ih _ _ (fun w hw => hv w (List.mem_cons_of_mem v hw))
      (polymodStep_lt c1 v hvlt) (polymodStep_lt c2 v hvlt)
      (fun h => hne (polymodStep_inj c1 c2 v hc1 hc2 h))

lemma foldl_polymod_set_ne : ∀ (l : List Nat) (j : Nat) (w' c : Nat)
    (hj : j < l.length), (∀ v ∈ l, v < 2 ^ 30) → w' < 2 ^ 30 → c < 2 ^ 30 →
    w' ≠ l[j] → (l.set j w').foldl polymodStep c ≠ l.foldl polymodStep c := by
  intro l
  induction l with
  | nil => intro j w' c hj; cases hj
  | cons v vs ih =>
    intro j w' c hj hv hw hc hne
    cases j with
    | zero =>
      simp only [List.set_cons_zero, List.foldl_cons]
      have hvlt : v < 2 ^ 30 := hv v (List.mem_cons_self v vs)
      exact foldl_polymod_inj vs _ _ (fun w hw' => hv w (List.mem_cons_of_mem v hw'))
        (polymodStep_lt c w' hw) (polymodStep_lt c v hvlt)
        (fun h => (polymodStep_ne_sym c w' v (by simpa using hne)) h)
    | succ j' =>
      simp only [List.set_cons_succ, List.foldl_cons]
      have hvlt : v < 2 ^ 30 := hv v (List.mem_cons_self v vs)
      exact ih j' w' (polymodStep c v) (by simpa using hj)
        (fun w hw' => hv w (List.mem_cons_of_mem v hw')) hw
        (polymodStep_lt c v hvlt) (by simpa using hne)

/-- Changing one in-range symbol of the value list changes the polymod
checksum: the single-error-detection property of the bech32 polynomial. -/
lemma polymod_set_ne (pre l : List Nat) (j w' : Nat) (hj : j < l.length)
    (hpre : ∀ v ∈ pre, v < 2 ^ 30) (hl : ∀ v ∈ l, v < 2 ^ 30)
    (hw : w' < 2 ^ 30) (hne : w' ≠ l[j]) :
    _bech32_polymod (pre ++ l.set j w') ≠ _bech32_polymod (pre ++ l) := by
  unfold _bech32_polymod
  rw [List.foldl_append, List.foldl_append]
  exact foldl_polymod_set_ne l j w' _ hj hl hw
    (foldl_polymod_lt pre 1 hpre (by norm_num)) hne

/-! ## Helpers relating a one-character change to the decode pipeline -/

lemma lookupIdx_mem (c : Nat) : ∀ (L : List Nat) (i : Nat),
    lookupIdx c L = some i → c ∈ L := by
  intro L
  induction L with
  | nil => intro i h; cases h
  | cons x rest ih =>
    intro i h
    by_cases hx : x = c
    · rw [hx]; exact List.mem_cons_self c rest
    · simp only [lookupIdx, if_neg hx, Option.map_eq_some'] at h
      obtain ⟨j, hj, _⟩ := h
      exact List.mem_cons_of_mem x (ih j hj)

lemma lookupIdx_exists (c : Nat) : ∀ L : List Nat, c ∈ L →
    ∃ i, lookupIdx c L = some i := by
  intro L
  induction L with
  | nil => intro h; cases h
  | cons x rest ih =>
    intro h
    by_cases hx : x = c
    · exact ⟨0, by simp [lookupIdx, hx]⟩
    · rcases List.mem_cons.mp h with rfl | hmem
      · exact absurd rfl hx
      · obtain ⟨i, hi⟩ := ih hmem
        exact ⟨i + 1, by simp [lookupIdx, hx, hi]⟩

lemma lookupIdx_inj (c1 c2 : Nat) : ∀ (L : List Nat) (i : Nat),
    lookupIdx c1 L = some i → lookupIdx c2 L = some i → c1 = c2 := by
  intro L
  induction L with
  | nil => intro i h; cases h
  | cons x rest ih =>
    intro i h1 h2
    by_cases hx1 : x = c1 <;> by_cases hx2 : x = c2
    · rw [← hx1, hx2]
    · simp only [lookupIdx, if_pos hx1, Option.some_inj] at h1
      simp only [lookupIdx, if_neg hx2, Option.map_eq_some'] at h2
      obtain ⟨j, _, hj2⟩ := h2
      omega
    · simp only [lookupIdx, if_pos hx2, Option.some_inj] at h2
      simp only [lookupIdx, if_neg hx1, Option.map_eq_some'] at h1
      obtain ⟨j, _, hj1⟩ := h1
      omega
    · simp only [lookupIdx, if_neg hx1, Option.map_eq_some'] at h1
      simp only [lookupIdx, if_neg hx2, Option.map_eq_some'] at h2
      obtain ⟨j1, hj1, hj1e⟩ := h1
      obtain ⟨j2, hj2, hj2e⟩ := h2
      obtain rfl : j1 = j2 := by omega
      exact ih j1 hj1 hj2

lemma mapWords_length : ∀ (l ws : List Nat), mapWords l = some ws →
    ws.length = l.length := by
  intro l
  induction l with
  | nil =>
    intro ws h
    simp only [mapWords, Option.some_inj] at h
    simp [← h]
  | cons c rest ih =>
    intro ws h
    simp only [mapWords] at h
    cases hc : charsetIdx c with
    | none => rw [hc] at h; cases h
    | some w0 =>
      rw [hc] at h
      cases hm : mapWords rest with
      | none => rw [hm] at h; cases h
      | some ws0 =>
        rw [hm] at h
        simp only [Option.some_inj] at h
        subst h
        simp [ih ws0 hm]

lemma mapWords_getElem : ∀ (l ws : List Nat), mapWords l = some ws →
    ∀ (j : Nat) (hj : j < l.length) (hj' : j < ws.length),
      charsetIdx l[j] = some ws[j] := by
  intro l
  induction l with
  | nil => intro ws h j hj; cases hj
  | cons c rest ih =>
    intro ws h j hj hj'
    simp only [mapWords] at h
    cases hc : charsetIdx c with
    | none => rw [hc] at h; cases h
    | some w0 =>
      rw [hc] at h
      cases hm : mapWords rest with
      | none => rw [hm] at h; cases h
      | some ws0 =>
        rw [hm] at h
        simp only [Option.some_inj] at h
        subst h
        cases j with
        | zero => simpa using hc
        | succ j' =>
          simp only [List.getElem_cons_succ]
          exact ih ws0 hm j' (by simpa using hj) (by simpa using hj')

lemma mapWords_set (c' w' : Nat) (hc : charsetIdx c' = some w') :
    ∀ (l ws : List Nat), mapWords l = some ws →
    ∀ j : Nat, mapWords (l.set j c') = some (ws.set j w') := by
  intro l
  induction l with
  | nil =>
    intro ws h j
    simp only [mapWords, Option.some_inj] at h
    simp [← h, mapWords]
  | cons c rest ih =>
    intro ws h j
    simp only [mapWords] at h
    cases hcc : charsetIdx c with
    | none => rw [hcc] at h; cases h
    | some w0 =>
      rw [hcc] at h
      cases hm : mapWords rest with
      | none => rw [hm] at h; cases h
      | some ws0 =>
        rw [hm] at h
        simp only [Option.some_inj] at h
        subst h
        cases j with
        | zero => simp [mapWords, hc, hm]
        | succ j' =>
          simp only [List.set_cons_succ, mapWords, hcc, ih ws0 hm j']

lemma rfind1_set (c' : Nat) (hc : c' ≠ 49) : ∀ (l : List Nat) (p : Nat),
    l.getD p 0 ≠ 49 → rfind1 (l.set p c') = rfind1 l := by
  intro l
  induction l with
  | nil => intro p _; rfl
  | cons x xs ih =>
    intro p hp
    cases p with
    | zero =>
      have hx : x ≠ 49 := by simpa using hp
      simp only [List.set_cons_zero, rfind1]
      cases rfind1 xs with
      | some i => rfl
      | none => simp [hc, hx]
    | succ p' =>
      have hp' : xs.getD p' 0 ≠ 49 := by simpa using hp
      simp only [List.set_cons_succ, rfind1, ih p' hp']

/-- Every character of the bech32 alphabet is lowercase-fixed, printable
ASCII and distinct from the separator `'1'`. -/
lemma charset_char_props : ∀ c ∈ CHARSET, pyLower c = c ∧ 33 ≤ c ∧ c ≤ 126 ∧ c ≠ 49 := by
  decide

/-- Inversion of a successful decode: all pipeline stages passed. -/
lemma nip19_accepts_inv (bech : List Nat) (h : (_nip19_payload bech).isSome = true) :
    ¬((bech.map pyLower ≠ bech ∧ bech.map pyUpper ≠ bech) ∨
      bech.any (fun c => c < 33 || 126 < c) = true) ∧
    ∃ pos ws, rfind1 (bech.map pyLower) = some pos ∧
      ¬(pos < 1 ∨ pos + 7 > (bech.map pyLower).length) ∧
      mapWords ((bech.map pyLower).drop (pos + 1)) = some ws ∧
      _bech32_polymod (_bech32_hrp_expand ((bech.map pyLower).take pos) ++ ws) = 1 := by
  by_cases hif : (bech.map pyLower ≠ bech ∧ bech.map pyUpper ≠ bech) ∨
      bech.any (fun c => c < 33 || 126 < c) = true
  · exfalso
    have hdec : _bech32_decode_to_words bech = none := by
      unfold _bech32_decode_to_words
      rw [if_pos hif]
    simp [_nip19_payload, hdec] at h
  · refine ⟨hif, ?_⟩
    cases hpos : rfind1 (bech.map pyLower) with
    | none =>
      exfalso
      have hdec : _bech32_decode_to_words bech = none := by
        unfold _bech32_decode_to_words
        rw [if_neg hif]
        simp only [hpos]
      simp [_nip19_payload, hdec] at h
    | some pos =>
      by_cases hguard : pos < 1 ∨ pos + 7 > (bech.map pyLower).length
      · exfalso
        have hdec : _bech32_decode_to_words bech = none := by
          unfold _bech32_decode_to_words
          rw [if_neg hif]
          simp only [hpos]
          rw [if_pos hguard]
        simp [_nip19_payload, hdec] at h
      · cases hmw : mapWords ((bech.map pyLower).drop (pos + 1)) with
        | none =>
          exfalso
          have hdec : _bech32_decode_to_words bech = none := by
            unfold _bech32_decode_to_words
            rw [if_neg hif]
            simp only [hpos]
            rw [if_neg hguard]
            simp only [hmw]
          simp [_nip19_payload, hdec] at h
        | some ws =>
          by_cases hck : _bech32_polymod
              (_bech32_hrp_expand ((bech.map pyLower).take pos) ++ ws) = 1
          · exact ⟨pos, ws, rfl, hguard, hmw, hck⟩
          · exfalso
            have hdec : _bech32_decode_to_words bech = none := by
              unfold _bech32_decode_to_words
              rw [if_neg hif]
              simp only [hpos]
              rw [if_neg hguard]
              simp only [hmw]
              rw [if_pos (by simp [_bech32_verify_checksum, hck])]
            simp [_nip19_payload, hdec] at h

/-! ## Claim C7 (corrected) -/

/-- Counterexample to C7 as stated: the all-uppercase token `"3:152W339"` is
accepted by decode; changing its data-portion character `'W'` (position 5,
after the rightmost `'1'` at position 2) to the *different* alphabet
character `'w'` yields `"3:152w339"`, which decode still accepts — because
both lowercase to the same symbol string. -/
theorem bech32_flip_counterexample :
    (_nip19_payload [51, 58, 49, 53, 50, 87, 51, 51, 57]).isSome = true ∧
    rfind1 (([51, 58, 49, 53, 50, 87, 51, 51, 57] : List Nat).map pyLower) = some 2 ∧
    2 < 5 ∧ (5 : Nat) < 9 ∧
    (119 : Nat) ∈ CHARSET ∧ (119 : Nat) ≠ 87 ∧
    (_nip19_payload (([51, 58, 49, 53, 50, 87, 51, 51, 57] : List Nat).set 5 119)).isSome
      = true := by decide

/-- C7 as amended: for every string that decode accepts, changing exactly one
character of its data portion (any position after the rightmost `'1'`) to a
character of the 32-symbol alphabet *that is not the lowercase form of the
original character* yields a string that decode rejects (via the case check
when the change breaks case uniformity, otherwise because the polymod
checksum no longer evaluates to 1). -/
theorem bech32_single_flip_rejected :
    ∀ (bech : List Nat) (p c' pos : Nat),
      (_nip19_payload bech).isSome = true →
      rfind1 (bech.map pyLower) = some pos →
      pos < p → p < bech.length →
      c' ∈ CHARSET →
      c' ≠ pyLower (bech.getD p 0) →
      _nip19_payload (bech.set p c') = none := by
  intro bech p c' pos hacc hpos hp hplen hc hne
  obtain ⟨hif, pos0, ws, hpos0, hguard, hmw, hck⟩ := nip19_accepts_inv bech hacc
  obtain rfl : pos0 = pos := by rw [hpos0] at hpos; exact Option.some_inj.mp hpos
  obtain ⟨hclow, _, _, hc49⟩ := charset_char_props c' hc
  by_cases hif' : ((bech.set p c').map pyLower ≠ bech.set p c' ∧
      (bech.set p c').map pyUpper ≠ bech.set p c') ∨
      (bech.set p c').any (fun c => c < 33 || 126 < c) = true
  · have hdec : _bech32_decode_to_words (bech.set p c') = none := by
      unfold _bech32_decode_to_words
      rw [if_pos hif']
    simp [_nip19_payload, hdec]
  · have hmap : (bech.set p c').map pyLower = (bech.map pyLower).set p c' := by
      rw [List.map_set, hclow]
    have hblen : (bech.map pyLower).length = bech.length := List.length_map _ _
    have hplenb : p < (bech.map pyLower).length := by omega
    have hdplen : p - (pos0 + 1) < ((bech.map pyLower).drop (pos0 + 1)).length := by
      rw [List.length_drop]; omega
    have hwslen : ws.length = ((bech.map pyLower).drop (pos0 + 1)).length :=
      mapWords_length _ _ hmw
    have hjws : p - (pos0 + 1) < ws.length := by omega
    have hbp : ((bech.map pyLower).drop (pos0 + 1))[p - (pos0 + 1)] =
        (bech.map pyLower)[p] := by
      rw [List.getElem_drop]
      congr 1
      omega
    have hchar : charsetIdx (((bech.map pyLower).drop (pos0 + 1))[p - (pos0 + 1)])
        = some (ws[p - (pos0 + 1)]) :=
      mapWords_getElem _ _ hmw _ hdplen hjws
    have hmem : ((bech.map pyLower).drop (pos0 + 1))[p - (pos0 + 1)] ∈ CHARSET :=
      lookupIdx_mem _ _ _ hchar
    have hb49 : (bech.map pyLower)[p] ≠ 49 := by
      rw [← hbp]
      exact (charset_char_props _ hmem).2.2.2
    have hgd : pyLower (bech.getD p 0) = (bech.map pyLower)[p] := by
      have hgd0 : bech.getD p 0 = bech[p] := by
        simp [List.getD_eq_getElem?_getD, List.getElem?_eq_getElem hplen]
      rw [hgd0, List.getElem_map]
    have hrf : rfind1 ((bech.map pyLower).set p c') = some pos0 := by
      rw [rfind1_set c' hc49 (bech.map pyLower) p ?_, hpos]
      have : (bech.map pyLower).getD p 0 = (bech.map pyLower)[p] := by
        simp [List.getD_eq_getElem?_getD, List.getElem?_eq_getElem hplenb]
      rw [this]
      exact hb49
    obtain ⟨w', hw'⟩ := lookupIdx_exists c' CHARSET hc
    have hmw' : mapWords (((bech.map pyLower).set p c').drop (pos0 + 1)) =
        some (ws.set (p - (pos0 + 1)) w') := by
      rw [List.drop_set, if_neg (by omega)]
      exact mapWords_set c' w' hw' _ _ hmw _
    have hwne : w' ≠ ws[p - (pos0 + 1)] := by
      intro hwe
      apply hne
      have hceq : c' = ((bech.map pyLower).drop (pos0 + 1))[p - (pos0 + 1)] :=
        lookupIdx_inj _ _ CHARSET w' hw' (hwe ▸ hchar)
      rw [hceq, hbp, hgd]
    have htake : ((bech.map pyLower).set p c').take pos0 = (bech.map pyLower).take pos0 := by
      rw [List.set_take]
      apply List.set_eq_of_length_le
      rw [List.length_take]
      omega
    have hrange : ∀ c ∈ bech, 33 ≤ c ∧ c ≤ 126 := by
      intro c hcm
      have hno : ¬ (bech.any (fun c => c < 33 || 126 < c) = true) := fun hx => hif (Or.inr hx)
      simp only [List.any_eq_true, not_exists, not_and] at hno
      have := hno c hcm
      simp only [Bool.or_eq_true, decide_eq_true_eq, not_or] at this
      omega
    have hpre : ∀ v ∈ _bech32_hrp_expand ((bech.map pyLower).take pos0), v < 2 ^ 30 := by
      intro v hv
      have hchars : ∀ x ∈ (bech.map pyLower).take pos0, x < 2 ^ 29 := by
        intro x hx
        have hx' : x ∈ bech.map pyLower := List.take_subset _ _ hx
        obtain ⟨c, hcm, rfl⟩ := List.mem_map.mp hx'
        have := hrange c hcm
        unfold pyLower
        split <;> omega
      unfold _bech32_hrp_expand at hv
      rcases List.mem_append.mp hv with hv1 | hv2
      · rcases List.mem_append.mp hv1 with hv3 | hv4
        · obtain ⟨x, hx, rfl⟩ := List.mem_map.mp hv3
          have hxlt := hchars x hx
          have : x >>> 5 ≤ x := by
            rw [Nat.shiftRight_eq_div_pow]
            exact Nat.div_le_self _ _
          omega
        · have : v = 0 := by simpa using hv4
          omega
      · obtain ⟨x, hx, rfl⟩ := List.mem_map.mp hv2
        have : x &&& 31 < 32 := by
          have h31 : (31 : Nat) = 2 ^ 5 - 1 := by norm_num
          rw [h31, Nat.and_pow_two_sub_one_eq_mod]
          exact Nat.mod_lt _ (by norm_num)
        omega
    have hws30 : ∀ v ∈ ws, v < 2 ^ 30 := by
      intro v hv
      have := mapWords_lt32 _ _ hmw v hv
      omega
    have hw30 : w' < 2 ^ 30 := by
      have := charsetIdx_lt32 c' w' hw'
      omega
    have hcknew : _bech32_polymod (_bech32_hrp_expand ((bech.map pyLower).take pos0) ++
        ws.set (p - (pos0 + 1)) w') ≠ 1 := by
      intro h1
      exact polymod_set_ne (_bech32_hrp_expand ((bech.map pyLower).take pos0)) ws
        (p - (pos0 + 1)) w' hjws hpre hws30 hw30 hwne (h1.trans hck.symm)
    have hdec : _bech32_decode_to_words (bech.set p c') = none := by
      unfold _bech32_decode_to_words
      rw [if_neg hif']
      simp only [hmap, hrf]
      rw [if_neg (by rw [List.length_set]; exact hguard)]
      simp only [hmw']
      rw [htake]
      rw [if_pos (by simp [_bech32_verify_checksum, hcknew])]
    simp [_nip19_payload, hdec]

/-- Witness for C7 (amended): in the accepted token `"3:152w339"`, changing
the data character `'5'` at position 3 to `'q'` makes decode reject. -/
theorem bech32_single_flip_witness :
    _nip19_payload (([51, 58, 49, 53, 50, 119, 51, 51, 57] : List Nat).set 3 113) = none :=
  bech32_single_flip_rejected [51, 58, 49, 53, 50, 119, 51, 51, 57] 3 113 2
    (by decide) (by decide) (by decide) (by decide) (by decide) (by decide)

end Scrutiny
